import Mathlib

/-!
Verification development for the figma-asset-downloader repository
(v1.2.0 CLI, `src/index.js` of the published package).

The JavaScript source is embedded shallowly: the document tree becomes an
inductive `Node`, traversal and extraction become pure recursive functions,
the resolver becomes a function into `Except`, and the two export pipelines
become state-passing folds parameterized by oracles for the network and
image-conversion collaborators.  JavaScript `Map` objects (whose keys keep
insertion order and whose `set` overwrites in place) are modelled by ordered
association lists with the matching update operations.
-/

/-! ## JavaScript primitives -/

/-- JS `String.prototype.startsWith` (code-unit prefix, as a character-list
    prefix test so that concrete runs reduce in the kernel). -/
def strStartsWith (s p : String) : Bool :=
  p.data.isPrefixOf s.data

/-- JS emptiness test on a string. -/
def strIsEmpty (s : String) : Bool :=
  s.data.isEmpty

/-- JS truthiness of an optional string: `undefined` and `''` are falsy
    (`x || null` and `if (x)` both use this). -/
def jsOrNullStr : Option String → Option String
  | none => none
  | some s => if strIsEmpty s then none else some s

/-- `Map.set`: overwrite the value in place if the key exists (keeping its
    insertion position), else append a new entry. -/
def jsMapSet {β : Type} : List (String × β) → String → β → List (String × β)
  | [], k, v => [(k, v)]
  | (k', v') :: rest, k, v =>
    if k' = k then (k', v) :: rest else (k', v') :: jsMapSet rest k v

/-- `if (!m.has(k)) m.set(k, []); m.get(k).push(c)`. -/
def jsMapAppend {β : Type} : List (String × List β) → String → β → List (String × List β)
  | [], k, c => [(k, [c])]
  | (k', v) :: rest, k, c =>
    if k' = k then (k', v ++ [c]) :: rest else (k', v) :: jsMapAppend rest k c

/-- Association-list lookup (`Map.get`). -/
def alookup {β : Type} : List (String × β) → String → Option β
  | [], _ => none
  | (k', v) :: rest, k => if k' = k then some v else alookup rest k

/-- `Set.add` for strings (dedup, keep first-insertion order). -/
def jsSetAdd (l : List String) (s : String) : List String :=
  if s ∈ l then l else l ++ [s]

/-- JS `String.prototype.includes`. -/
def strIncludes (hay sub : String) : Bool :=
  decide (sub.data <:+: hay.data)


/-- JS `String.prototype.replace(pat, '')` with a plain-string pattern:
    remove the first occurrence of `pat`. -/
def stripFirstAux (pat : List Char) : List Char → List Char
  | [] => []
  | c :: rest =>
    if pat.isPrefixOf (c :: rest) then (c :: rest).drop pat.length
    else c :: stripFirstAux pat rest

def stripFirst (pat s : String) : String :=
  String.mk (stripFirstAux pat.data s.data)

/-- `name.replace(/\s+/g, '_').toLowerCase()`: collapse whitespace runs to a
    single underscore, lowercase the rest. -/
def sanitizeAux : List Char → Bool → List Char
  | [], _ => []
  | c :: rest, prevWs =>
    if c.isWhitespace then
      if prevWs then sanitizeAux rest true else '_' :: sanitizeAux rest true
    else c.toLower :: sanitizeAux rest false

def sanitize (s : String) : String :=
  String.mk (sanitizeAux s.data false)

/-- Uppercase hex digit. -/
def hexDigitChar (n : Nat) : Char :=
  if n < 10 then Char.ofNat (48 + n) else Char.ofNat (55 + n)

/-- UTF-8 bytes of a character. -/
def utf8Bytes (c : Char) : List Nat :=
  let n := c.toNat
  if n < 128 then [n]
  else if n < 2048 then [192 + n / 64, 128 + n % 64]
  else if n < 65536 then [224 + n / 4096, 128 + (n / 64) % 64, 128 + n % 64]
  else [240 + n / 262144, 128 + (n / 4096) % 64, 128 + (n / 64) % 64, 128 + n % 64]

/-- Characters `encodeURIComponent` leaves unescaped. -/
def isUriUnreserved (c : Char) : Bool :=
  c.isAlpha || c.isDigit ||
    c ∈ ['-', '_', '.', '!', '~', '*', Char.ofNat 39, '(', ')']

/-- JS `encodeURIComponent`. -/
def encodeURIComponent (s : String) : String :=
  String.mk (s.data.flatMap fun c =>
    if isUriUnreserved c then [c]
    else (utf8Bytes c).flatMap fun b => ['%', hexDigitChar (b / 16), hexDigitChar (b % 16)])

/-- Deep link printed for an ambiguous or duplicated component:
    `https://www.figma.com/file/${fileId}?node-id=${encodeURIComponent(id)}`. -/
def figmaLink (fileId compId : String) : String :=
  "https://www.figma.com/file/" ++ fileId ++ "?node-id=" ++ encodeURIComponent compId

/-- `path.join(a, b)` (posix). -/
def joinPath (a b : String) : String := a ++ "/" ++ b

/-! ## Document tree -/

/-- A Figma document node: identifier, optional name, type tag (a string in
    the API: CANVAS / COMPONENT / COMPONENT_SET / ...), children, optional
    owning component-set id, optional bounding box (width, height), optional
    description. -/
inductive Node where
  | mk : String → Option String → String → List Node → Option String →
         Option (Rat × Rat) → Option String → Node
deriving Repr

def Node.nid : Node → String
  | .mk i _ _ _ _ _ _ => i

def Node.nname : Node → Option String
  | .mk _ nm _ _ _ _ _ => nm

def Node.ntype : Node → String
  | .mk _ _ ty _ _ _ _ => ty

def Node.nchildren : Node → List Node
  | .mk _ _ _ cs _ _ _ => cs

def Node.ncsid : Node → Option String
  | .mk _ _ _ _ csid _ _ => csid

def Node.nbbox : Node → Option (Rat × Rat)
  | .mk _ _ _ _ _ bb _ => bb

def Node.ndesc : Node → Option String
  | .mk _ _ _ _ _ _ ds => ds

/-- `!node.name || node.name.startsWith('#')`. -/
def isBadName : Option String → Bool
  | none => true
  | some s => strIsEmpty s || strStartsWith s "#"

mutual
/-- `traverseNode(node, callback, path)` as the lazy pre-order sequence of
    `(node, currentPath)` pairs the callback would see. -/
def traverseNode : Node → List String → List (Node × List String)
  | q@(.mk _ nm _ cs _ _ _), path =>
    match nm with
    | none => []
    | some s =>
      if strIsEmpty s || strStartsWith s "#" then []
      else (q, path ++ [s]) :: traverseList cs (path ++ [s])

def traverseList : List Node → List String → List (Node × List String)
  | [], _ => []
  | c :: rest, path => traverseNode c path ++ traverseList rest path
end

/-- Child-index address of a node inside a tree. -/
def nodeAt : Node → List Nat → Option Node
  | n, [] => some n
  | .mk _ _ _ cs _ _ _, i :: rest =>
    match cs[i]? with
    | some c => nodeAt c rest
    | none => none

/-- Shift the leading child index of an address by one. -/
def shiftHead : List Nat → List Nat
  | [] => []
  | j :: r => (j + 1) :: r

mutual
/-- The addresses (child-index paths) of the nodes `traverseNode` visits, in
    visit order. -/
def visitAddrs : Node → List (List Nat)
  | .mk _ nm _ cs _ _ _ =>
    if isBadName nm then [] else [] :: visitAddrsList cs

def visitAddrsList : List Node → List (List Nat)
  | [] => []
  | c :: rest =>
    (visitAddrs c).map (fun a => 0 :: a) ++ (visitAddrsList rest).map shiftHead
end

/-- Resolve an address against a child list (the tail step of `nodeAt`). -/
def nodeAtList (cs : List Node) : List Nat → Option Node
  | [] => none
  | j :: r =>
    match cs[j]? with
    | some c => nodeAt c r
    | none => none

/-! ## Extracted component records -/

/-- `parentComponentSet = { id, name: setInfo.node.name, path: setInfo.path }`
    (the stored path is the raw array, not the joined display string). -/
structure ComponentSetRef where
  id : String
  name : Option String
  path : List String
deriving Repr, DecidableEq

/-- The flat record `extractComponents` pushes for every COMPONENT node. -/
structure Component where
  id : String
  name : String
  path : String
  type : String
  description : String
  width : Option Rat
  height : Option Rat
  componentSetId : Option String
  componentSet : Option ComponentSetRef
deriving Repr, DecidableEq

/-- A YAML value that may be a single string or an array of strings
    (`pageId` / `pageName`); `''` means "no selector". -/
inductive JsStrOrArr where
  | str : String → JsStrOrArr
  | arr : List String → JsStrOrArr
deriving Repr, DecidableEq

/-- `Array.isArray(x) ? x : (x ? [x] : [])`. -/
def toStrList : JsStrOrArr → List String
  | .str s => if strIsEmpty s then [] else [s]
  | .arr l => l

/-- A CANVAS node matching a page selector by id or name. -/
def pageMatch (pageIds pageNames : List String) (n : Node) : Bool :=
  n.ntype == "CANVAS" &&
    (pageIds.contains n.nid ||
      (match n.nname with
       | some s => pageNames.contains s
       | none => false))

mutual
/-- The `findPages` closure of `extractComponents`: every matching CANVAS node
    in pre-order (it does not use the name-skip rule). -/
def findPages (pageIds pageNames : List String) : Node → List Node
  | q@(.mk _ _ _ cs _ _ _) =>
    (if pageMatch pageIds pageNames q then [q] else []) ++
      findPagesList pageIds pageNames cs

def findPagesList (pageIds pageNames : List String) : List Node → List Node
  | [] => []
  | c :: rest => findPages pageIds pageNames c ++ findPagesList pageIds pageNames rest
end

mutual
/-- All nodes of a tree, in pre-order (no skipping); used to state what
    `findPages` collects. -/
def subnodes : Node → List Node
  | q@(.mk _ _ _ cs _ _ _) => q :: subnodesList cs

def subnodesList : List Node → List Node
  | [] => []
  | c :: rest => subnodes c ++ subnodesList rest
end

/-- The matched pages of `extractComponents` (empty when no selector given). -/
def foundPagesOf (fd : Node) (pageId pageName : JsStrOrArr) : List Node :=
  let pageIds := toStrList pageId
  let pageNames := toStrList pageName
  if pageIds.length > 0 || pageNames.length > 0 then findPages pageIds pageNames fd
  else []

/-- `nodesToProcess = foundPages.length > 0 ? foundPages : [rootNode]`. -/
def rootsOf (fd : Node) (pageId pageName : JsStrOrArr) : List Node :=
  let foundPages := foundPagesOf fd pageId pageName
  if foundPages.isEmpty then [fd] else foundPages

/-- Pass 1: collect every COMPONENT_SET keyed by id, with node and path. -/
def collectSets (roots : List Node) : List (String × Node × List String) :=
  (roots.flatMap (fun r => traverseNode r [])).foldl
    (fun m v =>
      if v.1.ntype == "COMPONENT_SET" then jsMapSet m v.1.nid (v.1, v.2) else m)
    []

/-- Pass 2 body: the record pushed for one COMPONENT node. -/
def buildComponent (n : Node) (path : List String)
    (sets : List (String × Node × List String)) : Component :=
  let parentComponentSet : Option ComponentSetRef :=
    match n.ncsid with
    | none => none
    | some sid =>
      if strIsEmpty sid then none
      else
        match alookup sets sid with
        | some (sn, sp) => some ⟨sid, sn.nname, sp⟩
        | none => none
  { id := n.nid
    name := n.nname.getD ""
    path := String.intercalate " / " path
    type := n.ntype
    description := n.ndesc.getD ""
    width := n.nbbox.map Prod.fst
    height := n.nbbox.map Prod.snd
    componentSetId := jsOrNullStr n.ncsid
    componentSet := parentComponentSet }

/-- `extractComponents(fileData, pageId, pageName)`. -/
def extractComponents (fd : Node) (pageId pageName : JsStrOrArr) : List Component :=
  let roots := rootsOf fd pageId pageName
  let sets := collectSets roots
  (roots.flatMap (fun r => traverseNode r [])).filterMap
    (fun v => if v.1.ntype == "COMPONENT" then some (buildComponent v.1 v.2 sets) else none)

/-! ## Component resolution (`fetchComponents`) -/

/-- `allComponents.filter(c => c.name === requestedName)`. -/
def exactMatches (allComponents : List Component) (n : String) : List Component :=
  allComponents.filter (fun c => c.name == n)

/-- One step of the duplicate / single-match classification loop. -/
def collectStep (allComponents : List Component)
    (acc : List (String × List Component) × List (String × Component))
    (n : String) : List (String × List Component) × List (String × Component) :=
  match exactMatches allComponents n with
  | [] => acc
  | [m] => (acc.1, jsMapSet acc.2 n m)
  | m₁ :: m₂ :: rest => (jsMapSet acc.1 n (m₁ :: m₂ :: rest), acc.2)

def collectGo (allComponents : List Component)
    (acc : List (String × List Component) × List (String × Component)) :
    List String → List (String × List Component) × List (String × Component)
  | [] => acc
  | n :: rest => collectGo allComponents (collectStep allComponents acc n) rest

/-- The `duplicates` and `nameMap` Maps after the classification loop. -/
def collectMatches (allComponents : List Component) (names : List String) :
    List (String × List Component) × List (String × Component) :=
  collectGo allComponents ([], []) names

/-- One reported ambiguity: the requested name, its exact matches, and the
    deep links printed for them. -/
structure DupEntry where
  name : String
  components : List Component
  links : List String
deriving Repr, DecidableEq

/-- The ways `fetchComponents` calls `process.exit(1)`. -/
inductive FetchErr where
  | sectionEmpty : String → FetchErr
  | duplicates : List DupEntry → FetchErr
  | noNames : FetchErr
  | noneFound : FetchErr
deriving Repr, DecidableEq

/-- The resolution core of `fetchComponents` (v1.2.0), with the extracted
    component list passed in and `process.exit(1)` modelled as `Except.error`. -/
def resolveComponents (fileId : String) (componentNames : List String)
    (sectionName : Option String) (downloadAll : Bool)
    (allComponents : List Component) : Except FetchErr (List Component) :=
  let sec := jsOrNullStr sectionName
  let secRes : Except FetchErr (List Component) :=
    match sec with
    | some s =>
      let f := allComponents.filter (fun c => strIncludes c.path s)
      if f.isEmpty then .error (.sectionEmpty s) else .ok f
    | none => .ok allComponents
  match secRes with
  | .error e => .error e
  | .ok filtered =>
    match componentNames with
    | [] =>
      if !downloadAll && sec.isNone then .error .noNames
      else if filtered.isEmpty then .error .noneFound
      else .ok filtered
    | _ :: _ =>
      let dn := collectMatches allComponents componentNames
      if dn.1.isEmpty then
        let fc := dn.2.map (fun kv => kv.2)
        if fc.isEmpty then .error .noneFound else .ok fc
      else
        .error (.duplicates (dn.1.map (fun kv =>
          ⟨kv.1, kv.2, kv.2.map (fun c => figmaLink fileId c.id)⟩)))

/-- `fetchComponents(fileId, componentNames, pageId, pageName)`: extraction
    followed by resolution. -/
def fetchComponents (fileId : String) (componentNames : List String) (fd : Node)
    (pageId pageName : JsStrOrArr) (sectionName : Option String)
    (downloadAll : Bool) : Except FetchErr (List Component) :=
  resolveComponents fileId componentNames sectionName downloadAll
    (extractComponents fd pageId pageName)

/-! ## Duplicate reporter (`findDuplicateComponents`) -/

/-- `component.name.startsWith('icon/') || component.name.startsWith('img/')`. -/
def relevantComponents (allComponents : List Component) : List Component :=
  allComponents.filter (fun c => strStartsWith c.name "icon/" || strStartsWith c.name "img/")

/-- `componentsByName`: group the relevant components by name. -/
def groupByName (l : List Component) : List (String × List Component) :=
  l.foldl (fun m c => jsMapAppend m c.name c) []

/-- The duplicate groups `findDuplicateComponents` reports: names carried by
    more than one component whose name starts with `icon/` or `img/`. -/
def findDuplicateComponents (allComponents : List Component) :
    List (String × List Component) :=
  (groupByName (relevantComponents allComponents)).filter (fun kv => kv.2.length > 1)

/-! ## Configuration and platform tables -/

/-- `ANDROID_DPI_SCALES` (an ordered string-keyed object in the source). -/
def ANDROID_DPI_SCALES : List (String × Rat) :=
  [("ldpi", 3/4), ("mdpi", 1), ("hdpi", 3/2), ("xhdpi", 2), ("xxhdpi", 3), ("xxxhdpi", 4)]

/-- `IOS_SCALES`. -/
def IOS_SCALES : List (String × Rat) :=
  [("1x", 1), ("2x", 2), ("3x", 3), ("ipad_1x", 2), ("ipad_2x", 3)]

/-- `config.icons` (the filename prefix field is called `prefix` in YAML). -/
structure IconsCfg where
  path : String
  pfx : String
deriving Repr, DecidableEq

/-- `config.images`. -/
structure ImagesCfg where
  path : String
  format : String
  quality : Nat
  pfx : String
  skipDpi : Option (List String)
deriving Repr, DecidableEq

/-- The loaded configuration threaded into the pipelines. -/
structure Config where
  fileId : String
  platform : String
  icons : IconsCfg
  images : ImagesCfg
deriving Repr, DecidableEq

/-- `Object.keys(ANDROID_DPI_SCALES).filter(dpi => !skipDpi || !skipDpi.includes(dpi))`. -/
def dpisToProcess (skipDpi : Option (List String)) : List String :=
  (ANDROID_DPI_SCALES.map Prod.fst).filter (fun dpi =>
    match skipDpi with
    | none => true
    | some l => !l.contains dpi)

/-- `ANDROID_DPI_SCALES[dpi]`. -/
def androidScale (dpi : String) : Rat :=
  (alookup ANDROID_DPI_SCALES dpi).getD 0

/-! ## iOS asset-catalog manifest (`createContentsJson`) -/

/-- One entry of the `images` array of a `Contents.json`. -/
structure ImageRef where
  filename : String
  idiom : String
  scale : Option String
deriving Repr, DecidableEq

structure ContentsInfo where
  author : String
  version : Nat
deriving Repr, DecidableEq

/-- The JSON value `createContentsJson` stringifies. -/
structure ContentsJson where
  images : List ImageRef
  info : ContentsInfo
  renderingIntent : String
deriving Repr, DecidableEq

/-- `createContentsJson(name, format)`. -/
def createContentsJson (name : String) (format : String) : ContentsJson :=
  if format == "svg" then
    { images := [⟨name ++ "." ++ format, "universal", none⟩]
      info := ⟨"Figma Asset Downloader", 1⟩
      renderingIntent := "original" }
  else
    { images :=
        [⟨name ++ "." ++ format, "universal", some "1x"⟩,
         ⟨name ++ "@2x." ++ format, "universal", some "2x"⟩,
         ⟨name ++ "@3x." ++ format, "universal", some "3x"⟩,
         ⟨name ++ "~ipad." ++ format, "ipad", some "1x"⟩,
         ⟨name ++ "~ipad@2x." ++ format, "ipad", some "2x"⟩]
      info := ⟨"xcode", 1⟩
      renderingIntent := "original" }

/-! ## Export pipelines

The network, optimizer and converter collaborators are oracles supplied as an
environment; the filesystem is a write-event log (`fs.ensureDir` /
`fs.writeFile` are recorded, never fail, and are external to the core per the
spec's scope).  A `catch` around a unit of work maps to the corresponding
failure branch of the oracle's result. -/

/-- The content written by `fs.writeFile`: raw text/bytes or a stringified
    `Contents.json`. -/
inductive WriteData where
  | raw : String → WriteData
  | json : ContentsJson → WriteData
deriving Repr, DecidableEq

/-- Filesystem effects and progress messages of a pipeline run. -/
structure FsState where
  dirs : List String
  writes : List (String × WriteData)
  attempts : List (String × String)
deriving Repr, DecidableEq

def FsState.empty : FsState := ⟨[], [], []⟩

/-- Result of `getImageUrls` followed by the `imageUrls[component.id]` lookup
    for one request: the call threw, the map had no (truthy) url, or a url. -/
inductive VarFetch where
  | apiThrow : VarFetch
  | noUrl : VarFetch
  | url : String → VarFetch
deriving Repr, DecidableEq

/-- External collaborators of the image pipeline: `fetchUrl id format scale`
    models one `getImageUrls` call plus the per-id lookup; `download` models
    `downloadImage`; `encodeWebp` models the sharp webp re-encode. -/
structure ImgEnv where
  fetchUrl : String → String → Rat → VarFetch
  download : String → Except String String
  encodeWebp : String → Nat → Except String String

/-- `${config.images.prefix}${sanitizedName}` for an image component. -/
def fileNameBaseOf (cfg : Config) (c : Component) : String :=
  cfg.images.pfx ++ sanitize (stripFirst "img/" c.name)

/-- One Android DPI iteration of `processImages` (the body of the
    `for (const dpi of dpisToProcess)` loop, `catch` included). -/
def androidVariant (env : ImgEnv) (cfg : Config) (c : Component) (dpi : String)
    (st : FsState) (failed : Bool) : FsState × Bool :=
  let st := { st with attempts := st.attempts ++ [(c.name, dpi)] }
  let dir := joinPath cfg.images.path ("drawable-" ++ dpi)
  let st := { st with dirs := st.dirs ++ [dir] }
  let filePath := joinPath dir (fileNameBaseOf cfg c ++ "." ++ cfg.images.format)
  match env.fetchUrl c.id "png" (androidScale dpi) with
  | .apiThrow => (st, true)
  | .noUrl => (st, true)
  | .url u =>
    match env.download u with
    | .error _ => (st, true)
    | .ok data =>
      if cfg.images.format == "webp" then
        match env.encodeWebp data cfg.images.quality with
        | .error _ => (st, true)
        | .ok w => ({ st with writes := st.writes ++ [(filePath, .raw w)] }, failed)
      else ({ st with writes := st.writes ++ [(filePath, .raw data)] }, failed)

/-- The write the Android branch performs for one (component, dpi) when that
    variant succeeds (`none` when it fails at any step). -/
def androidWriteOf (env : ImgEnv) (cfg : Config) (c : Component) (dpi : String) :
    Option (String × WriteData) :=
  let filePath := joinPath (joinPath cfg.images.path ("drawable-" ++ dpi))
    (fileNameBaseOf cfg c ++ "." ++ cfg.images.format)
  match env.fetchUrl c.id "png" (androidScale dpi) with
  | .apiThrow => none
  | .noUrl => none
  | .url u =>
    match env.download u with
    | .error _ => none
    | .ok data =>
      if cfg.images.format == "webp" then
        match env.encodeWebp data cfg.images.quality with
        | .error _ => none
        | .ok w => some (filePath, .raw w)
      else some (filePath, .raw data)

/-- All Android DPI iterations for one image component. -/
def processAndroidComponent (env : ImgEnv) (cfg : Config) (c : Component)
    (st : FsState) : FsState × Bool :=
  (dpisToProcess cfg.images.skipDpi).foldl
    (fun acc dpi => androidVariant env cfg c dpi acc.1 acc.2) (st, false)

/-- `${fileNameBase}`, `@2x`, `~ipad`, `~ipad@2x` naming for an iOS scale. -/
def iosScaleFileName (base scale : String) : String :=
  if strStartsWith scale "ipad_" then
    let ipadScale := stripFirst "ipad_" scale
    if ipadScale == "1x" then base ++ "~ipad" else base ++ "~ipad@" ++ ipadScale
  else if scale == "1x" then base else base ++ "@" ++ scale

/-- One iOS scale iteration.  `getImageUrls` sits *outside* the try block in
    the source, so its throw propagates (modelled by `Except.error` carrying
    the state at that point); a missing url or a download/write failure only
    sets the component's `failed` flag. -/
def iosVariant (env : ImgEnv) (cfg : Config) (c : Component) (base assetPath : String)
    (scale : String) (factor : Rat) (st : FsState) (failed : Bool) :
    Except FsState (FsState × Bool) :=
  let st := { st with attempts := st.attempts ++ [(c.name, scale)] }
  match env.fetchUrl c.id cfg.images.format factor with
  | .apiThrow => .error st
  | .noUrl => .ok (st, true)
  | .url u =>
    let filePath := joinPath assetPath (iosScaleFileName base scale ++ "." ++ cfg.images.format)
    match env.download u with
    | .error _ => .ok (st, true)
    | .ok data => .ok ({ st with writes := st.writes ++ [(filePath, .raw data)] }, failed)

def iosScalesGo (env : ImgEnv) (cfg : Config) (c : Component) (base assetPath : String) :
    List (String × Rat) → FsState → Bool → Except FsState (FsState × Bool)
  | [], st, failed => .ok (st, failed)
  | (scale, factor) :: rest, st, failed =>
    match iosVariant env cfg c base assetPath scale factor st failed with
    | .error st' => .error st'
    | .ok (st', failed') => iosScalesGo env cfg c base assetPath rest st' failed'

/-- The iOS branch for one image component: imageset dir, the five scale
    variants, then `Contents.json` written after all variants attempt. -/
def processIosComponent (env : ImgEnv) (cfg : Config) (c : Component)
    (st : FsState) : Except FsState (FsState × Bool) :=
  let base := fileNameBaseOf cfg c
  let assetPath := joinPath cfg.images.path (base ++ ".imageset")
  let st := { st with dirs := st.dirs ++ [assetPath] }
  match iosScalesGo env cfg c base assetPath IOS_SCALES st false with
  | .error st' => .error st'
  | .ok (st', failed) =>
    .ok ({ st' with writes := st'.writes ++
            [(joinPath assetPath "Contents.json",
              .json (createContentsJson base cfg.images.format))] }, failed)

/-- Result of a pipeline run: effects, the processed-name set, and whether an
    uncaught exception aborted the run. -/
structure PipeResult where
  st : FsState
  processed : List String
  aborted : Bool
deriving Repr, DecidableEq

def processImagesAndroidGo (env : ImgEnv) (cfg : Config) :
    List Component → FsState → List String → PipeResult
  | [], st, processed => ⟨st, processed, false⟩
  | c :: rest, st, processed =>
    let (st', failed) := processAndroidComponent env cfg c st
    processImagesAndroidGo env cfg rest st'
      (if failed then processed else jsSetAdd processed c.name)

def processImagesIosGo (env : ImgEnv) (cfg : Config) :
    List Component → FsState → List String → PipeResult
  | [], st, processed => ⟨st, processed, false⟩
  | c :: rest, st, processed =>
    match processIosComponent env cfg c st with
    | .error st' => ⟨st', processed, true⟩
    | .ok (st', failed) =>
      processImagesIosGo env cfg rest st'
        (if failed then processed else jsSetAdd processed c.name)

/-- `processImages(components, fileId, config)`. -/
def processImages (env : ImgEnv) (cfg : Config) (components : List Component) :
    PipeResult :=
  let imageComponents := components.filter (fun c => strStartsWith c.name "img/")
  if cfg.platform == "android" then
    processImagesAndroidGo env cfg imageComponents FsState.empty []
  else
    processImagesIosGo env cfg imageComponents FsState.empty []

/-- External collaborators of the icon pipeline: one batched `getImageUrls`
    call (throw or an id→url map), then per-icon download, svgo optimization
    (whose failure falls back to the input), and the Android converter. -/
structure IconEnv where
  fetchUrls : Except Unit (String → Option String)
  downloadSvg : String → Except String String
  optimize : String → Except String String
  convert : String → Except String String

/-- One icon iteration of `processIcons` (the per-component try/catch). -/
def processIconStep (env : IconEnv) (cfg : Config) (urls : String → Option String)
    (acc : PipeResult) (c : Component) : PipeResult :=
  match urls c.id with
  | none => acc
  | some u =>
    let fileName := cfg.icons.pfx ++ sanitize (stripFirst "icon/" c.name)
    match env.downloadSvg u with
    | .error _ => acc
    | .ok svgContent =>
      let optimizedSvg :=
        match env.optimize svgContent with
        | .error _ => svgContent
        | .ok o => o
      if cfg.platform == "android" then
        match env.convert optimizedSvg with
        | .error _ => acc
        | .ok xmlContent =>
          let drawablePath := joinPath cfg.icons.path "drawable"
          ⟨{ acc.st with
              dirs := acc.st.dirs ++ [drawablePath]
              writes := acc.st.writes ++
                [(joinPath drawablePath (fileName ++ ".xml"), .raw xmlContent)] },
            jsSetAdd acc.processed c.name, false⟩
      else
        let assetPath := joinPath cfg.icons.path (fileName ++ ".imageset")
        ⟨{ acc.st with
            dirs := acc.st.dirs ++ [assetPath]
            writes := acc.st.writes ++
              [(joinPath assetPath (fileName ++ ".svg"), .raw optimizedSvg),
               (joinPath assetPath "Contents.json",
                .json (createContentsJson fileName cfg.images.format))] },
          jsSetAdd acc.processed c.name, false⟩

/-- `processIcons(components, fileId, config)`. -/
def processIcons (env : IconEnv) (cfg : Config) (components : List Component) :
    PipeResult :=
  let iconComponents := components.filter (fun c => strStartsWith c.name "icon/")
  match iconComponents with
  | [] => ⟨FsState.empty, [], false⟩
  | _ :: _ =>
    match env.fetchUrls with
    | .error _ => ⟨FsState.empty, [], false⟩
    | .ok urls => iconComponents.foldl (processIconStep env cfg urls) ⟨FsState.empty, [], false⟩

/-- `main` after config loading: fetch, then both pipelines; a fetch error is
    `process.exit(1)` before any export, so nothing is written. -/
def runExport (ienv : IconEnv) (menv : ImgEnv) (cfg : Config)
    (componentNames : List String) (sectionName : Option String) (downloadAll : Bool)
    (fd : Node) (pageId pageName : JsStrOrArr) : List (String × WriteData) :=
  match fetchComponents cfg.fileId componentNames fd pageId pageName sectionName downloadAll with
  | .error _ => []
  | .ok comps => (processIcons ienv cfg comps).st.writes ++ (processImages menv cfg comps).st.writes

/-! ## Further derived definitions and concrete fixtures -/

/-- The write the iOS branch performs for one (component, scale) when that
    variant's download succeeds (`none` on a missing url or download failure;
    an api throw never reaches the write). -/
def iosWriteOf (env : ImgEnv) (cfg : Config) (c : Component) (base assetPath : String)
    (sf : String × Rat) : Option (String × WriteData) :=
  match env.fetchUrl c.id cfg.images.format sf.2 with
  | .apiThrow => none
  | .noUrl => none
  | .url u =>
    match env.download u with
    | .error _ => none
    | .ok data =>
      some (joinPath assetPath (iosScaleFileName base sf.1 ++ "." ++ cfg.images.format),
        .raw data)

/-- Fixtures used by the concrete witnesses below. -/
def exCompA : Component :=
  ⟨"1:1", "icon/a", "Document / Page 1 / Sec1 / icon/a", "COMPONENT", "", none, none, none, none⟩

def exCompA2 : Component :=
  ⟨"1:2", "icon/a", "Document / Page 2 / icon/a", "COMPONENT", "", none, none, none, none⟩

def exCompB : Component :=
  ⟨"1:3", "img/b", "Document / Page 1 / img/b", "COMPONENT", "", none, none, none, none⟩

def exCompBtn : Component :=
  ⟨"1:4", "button/a", "Document / Page 1 / button/a", "COMPONENT", "", none, none, none, none⟩

def exSetNode : Node :=
  .mk "3:1" (some "ButtonSet") "COMPONENT_SET"
    [.mk "3:2" (some "v1") "COMPONENT" [] (some "3:1") none none,
     .mk "3:3" (some "v2") "COMPONENT" [] (some "9:9") none none] none none none

def exBadNode : Node :=
  .mk "2:2" (some "#hidden") "FRAME"
    [.mk "2:3" (some "icon/c") "COMPONENT" [] none none none] none none none

def exPage : Node :=
  .mk "0:1" (some "Page 1") "CANVAS"
    [.mk "2:1" (some "icon/a") "COMPONENT" [] none none none, exBadNode, exSetNode]
    none none none

def exDoc : Node :=
  .mk "0:0" (some "Document") "DOCUMENT" [exPage] none none none

def cfgAndroid : Config :=
  ⟨"FID", "android", ⟨"res", "ic_"⟩, ⟨"res", "webp", 90, "img_", none⟩⟩

def cfgAndroidSkip : Config :=
  ⟨"FID", "android", ⟨"res", "ic_"⟩, ⟨"res", "webp", 90, "img_", some ["ldpi", "mdpi"]⟩⟩

def cfgIos : Config :=
  ⟨"FID", "ios", ⟨"Assets.xcassets", ""⟩, ⟨"Assets.xcassets", "png", 90, "", none⟩⟩

def exImgA : Component :=
  ⟨"5:1", "img/a", "Document / img/a", "COMPONENT", "", none, none, none, none⟩

def exIconHome : Component :=
  ⟨"6:1", "icon/home", "Document / icon/home", "COMPONENT", "", none, none, none, none⟩

def envAllOk : ImgEnv :=
  ⟨fun _ _ _ => .url "u", fun _ => .ok "data", fun _ _ => .ok "webpdata"⟩

/-- The iOS run in which the url fetch for scale factor 2 (the `2x` variant)
    throws, while every other fetch and download succeeds. -/
def envIosThrow2x : ImgEnv :=
  ⟨fun _ _ scale => if scale == 2 then .apiThrow else .url "u",
   fun _ => .ok "data", fun _ _ => .ok "w"⟩

def iconEnvOk : IconEnv :=
  ⟨.ok (fun _ => some "u"), fun _ => .ok "svgdata", fun _ => .ok "optsvg",
   fun _ => .ok "xml"⟩

/-! ## Lemmas: ordered-map primitives -/

/-- Keys of an association list are pairwise distinct. -/
def keysND {β : Type} (m : List (String × β)) : Prop :=
  (m.map Prod.fst).Nodup

theorem alookup_jsMapSet {β : Type} (m : List (String × β)) (k : String) (v : β)
    (k' : String) :
    alookup (jsMapSet m k v) k' = if k' = k then some v else alookup m k' := by
  induction m with
  | nil =>
    simp only [jsMapSet, alookup]
    rcases eq_or_ne k k' with he | he
    · subst he; simp
    · simp [he, Ne.symm he]
  | cons hd tl ih =>
    obtain ⟨kh, vh⟩ := hd
    simp only [jsMapSet]
    by_cases h1 : kh = k
    · subst h1
      simp only [if_pos rfl, alookup]
      rcases eq_or_ne kh k' with he | he
      · subst he; simp
      · simp [he, Ne.symm he]
    · simp only [if_neg h1, alookup, ih]
      rcases eq_or_ne kh k' with he | he
      · subst he; simp [h1]
      · rcases eq_or_ne k' k with he2 | he2
        · subst he2; simp [he]
        · simp [he, he2]

theorem keys_jsMapSet {β : Type} (m : List (String × β)) (k : String) (v : β) :
    (jsMapSet m k v).map Prod.fst =
      if k ∈ m.map Prod.fst then m.map Prod.fst else m.map Prod.fst ++ [k] := by
  induction m with
  | nil => simp [jsMapSet]
  | cons hd tl ih =>
    obtain ⟨kh, vh⟩ := hd
    by_cases h1 : kh = k
    · simp [jsMapSet, h1]
    · simp only [jsMapSet, if_neg h1, List.map_cons, ih, List.mem_cons]
      by_cases h2 : k ∈ tl.map Prod.fst <;>
        simp [h1, h2, Ne.symm h1]

theorem keysND_jsMapSet {β : Type} (m : List (String × β)) (k : String) (v : β)
    (h : keysND m) : keysND (jsMapSet m k v) := by
  unfold keysND at *
  rw [keys_jsMapSet]
  by_cases h2 : k ∈ m.map Prod.fst
  · simpa [h2]
  · simp only [if_neg h2]
    simpa [List.nodup_append, h2] using h

theorem mem_iff_alookup {β : Type} (m : List (String × β)) (h : keysND m)
    (k : String) (v : β) : (k, v) ∈ m ↔ alookup m k = some v := by
  induction m with
  | nil => simp [alookup]
  | cons hd tl ih =>
    obtain ⟨kh, vh⟩ := hd
    unfold keysND at h
    simp only [List.map_cons, List.nodup_cons] at h
    have htl := ih h.2
    simp only [alookup, List.mem_cons]
    by_cases h1 : kh = k
    · subst h1
      have hnot : (kh, v) ∉ tl := fun hm => h.1 (List.mem_map.mpr ⟨(kh, v), hm, rfl⟩)
      simp only [if_pos rfl]
      constructor
      · rintro (heq | hm)
        · simp only [Prod.mk.injEq] at heq
          simp [heq.2]
        · exact absurd hm hnot
      · intro heq
        simp only [if_true, Option.some.injEq] at heq
        exact Or.inl (by simp [heq.symm])
    · simp only [if_neg h1, ← htl]
      constructor
      · rintro (heq | hm)
        · simp only [Prod.mk.injEq] at heq
          exact absurd heq.1.symm h1
        · exact hm
      · exact fun hm => Or.inr hm

theorem alookup_ne_nil {β : Type} (m : List (String × β)) (k : String) (v : β)
    (h : alookup m k = some v) : m ≠ [] := by
  intro he
  subst he
  simp [alookup] at h

theorem alookup_jsMapAppend {β : Type} (m : List (String × List β)) (k : String)
    (c : β) (k' : String) :
    alookup (jsMapAppend m k c) k' =
      if k' = k then some ((alookup m k).getD [] ++ [c]) else alookup m k' := by
  induction m with
  | nil =>
    simp only [jsMapAppend, alookup]
    rcases eq_or_ne k k' with he | he
    · subst he; simp
    · simp [he, Ne.symm he]
  | cons hd tl ih =>
    obtain ⟨kh, vh⟩ := hd
    simp only [jsMapAppend]
    by_cases h1 : kh = k
    · subst h1
      simp only [if_pos rfl, alookup]
      rcases eq_or_ne kh k' with he | he
      · subst he; simp
      · simp [he, Ne.symm he]
    · simp only [if_neg h1, alookup, ih]
      rcases eq_or_ne kh k' with he | he
      · subst he; simp [h1]
      · rcases eq_or_ne k' k with he2 | he2
        · subst he2; simp [he]
        · simp [he, he2]

theorem keys_jsMapAppend {β : Type} (m : List (String × List β)) (k : String) (c : β) :
    (jsMapAppend m k c).map Prod.fst =
      if k ∈ m.map Prod.fst then m.map Prod.fst else m.map Prod.fst ++ [k] := by
  induction m with
  | nil => simp [jsMapAppend]
  | cons hd tl ih =>
    obtain ⟨kh, vh⟩ := hd
    by_cases h1 : kh = k
    · simp [jsMapAppend, h1]
    · simp only [jsMapAppend, if_neg h1, List.map_cons, ih, List.mem_cons]
      by_cases h2 : k ∈ tl.map Prod.fst <;>
        simp [h1, h2, Ne.symm h1]

theorem keysND_jsMapAppend {β : Type} (m : List (String × List β)) (k : String)
    (c : β) (h : keysND m) : keysND (jsMapAppend m k c) := by
  unfold keysND at *
  rw [keys_jsMapAppend]
  by_cases h2 : k ∈ m.map Prod.fst
  · simpa [h2]
  · simp only [if_neg h2]
    simpa [List.nodup_append, h2] using h

theorem mem_jsSetAdd (l : List String) (s n : String) :
    n ∈ jsSetAdd l s ↔ n ∈ l ∨ n = s := by
  unfold jsSetAdd
  by_cases h : s ∈ l
  · simp only [if_pos h]
    constructor
    · exact fun hm => Or.inl hm
    · rintro (hm | he)
      · exact hm
      · exact he ▸ h
  · simp [if_neg h]

/-! ## Lemmas: the duplicate / single-match classification loop -/

theorem collectGo_fst_stable (allC : List Component) (names : List String) :
    ∀ (acc : List (String × List Component) × List (String × Component)) (k : String),
      (k ∉ names ∨ (exactMatches allC k).length ≤ 1) →
      alookup (collectGo allC acc names).1 k = alookup acc.1 k := by
  induction names with
  | nil => intro acc k _; simp [collectGo]
  | cons n rest ih =>
    intro acc k hk
    simp only [collectGo]
    rw [ih _ k (by
      rcases hk with hk | hk
      · exact Or.inl (fun hm => hk (List.mem_cons_of_mem _ hm))
      · exact Or.inr hk)]
    rcases hm : exactMatches allC n with _ | ⟨m1, _ | ⟨m2, ms⟩⟩
    · simp [collectStep, hm]
    · simp [collectStep, hm]
    · simp only [collectStep, hm]
      rw [alookup_jsMapSet]
      have hkn : k ≠ n := by
        intro he
        subst he
        rcases hk with hk | hk
        · exact hk (List.mem_cons_self _ _)
        · rw [hm] at hk
          simp at hk
      simp [hkn]

theorem collectGo_fst_dup (allC : List Component) (names : List String) :
    ∀ (acc : List (String × List Component) × List (String × Component)) (k : String),
      k ∈ names → 1 < (exactMatches allC k).length →
      alookup (collectGo allC acc names).1 k = some (exactMatches allC k) := by
  induction names with
  | nil => intro acc k hk _; simp at hk
  | cons n rest ih =>
    intro acc k hk hdup
    by_cases hkr : k ∈ rest
    · simp only [collectGo]
      exact ih _ k hkr hdup
    · have hkn : k = n := by
        rcases List.mem_cons.mp hk with he | hm
        · exact he
        · exact absurd hm hkr
      subst hkn
      simp only [collectGo]
      rw [collectGo_fst_stable allC rest _ k (Or.inl hkr)]
      rcases hm : exactMatches allC k with _ | ⟨m1, _ | ⟨m2, ms⟩⟩
      · rw [hm] at hdup; simp at hdup
      · rw [hm] at hdup; simp at hdup
      · simp only [collectStep, hm]
        rw [alookup_jsMapSet]
        simp [← hm]

theorem collectGo_snd_stable (allC : List Component) (names : List String) :
    ∀ (acc : List (String × List Component) × List (String × Component)) (k : String),
      (k ∉ names ∨ (exactMatches allC k).length ≠ 1) →
      alookup (collectGo allC acc names).2 k = alookup acc.2 k := by
  induction names with
  | nil => intro acc k _; simp [collectGo]
  | cons n rest ih =>
    intro acc k hk
    simp only [collectGo]
    rw [ih _ k (by
      rcases hk with hk | hk
      · exact Or.inl (fun hm => hk (List.mem_cons_of_mem _ hm))
      · exact Or.inr hk)]
    rcases hm : exactMatches allC n with _ | ⟨m1, _ | ⟨m2, ms⟩⟩
    · simp [collectStep, hm]
    · simp only [collectStep, hm]
      rw [alookup_jsMapSet]
      have hkn : k ≠ n := by
        intro he
        subst he
        rcases hk with hk | hk
        · exact hk (List.mem_cons_self _ _)
        · rw [hm] at hk
          simp at hk
      simp [hkn]
    · simp [collectStep, hm]

theorem collectGo_snd_single (allC : List Component) (names : List String) :
    ∀ (acc : List (String × List Component) × List (String × Component)) (k : String)
      (m : Component),
      k ∈ names → exactMatches allC k = [m] →
      alookup (collectGo allC acc names).2 k = some m := by
  induction names with
  | nil => intro acc k m hk _; simp at hk
  | cons n rest ih =>
    intro acc k m hk hm
    by_cases hkr : k ∈ rest
    · simp only [collectGo]
      exact ih _ k m hkr hm
    · have hkn : k = n := by
        rcases List.mem_cons.mp hk with he | hmem
        · exact he
        · exact absurd hmem hkr
      subst hkn
      simp only [collectGo]
      rw [collectGo_snd_stable allC rest _ k (Or.inl hkr)]
      simp only [collectStep, hm]
      rw [alookup_jsMapSet]
      simp

theorem collectGo_fst_keysND (allC : List Component) (names : List String) :
    ∀ (acc : List (String × List Component) × List (String × Component)),
      keysND acc.1 → keysND (collectGo allC acc names).1 := by
  induction names with
  | nil => intro acc h; simpa [collectGo]
  | cons n rest ih =>
    intro acc h
    simp only [collectGo]
    refine ih _ ?_
    rcases hm : exactMatches allC n with _ | ⟨m1, _ | ⟨m2, ms⟩⟩ <;>
      simp only [collectStep, hm]
    · exact h
    · exact h
    · exact keysND_jsMapSet _ _ _ h

theorem collectGo_snd_keysND (allC : List Component) (names : List String) :
    ∀ (acc : List (String × List Component) × List (String × Component)),
      keysND acc.2 → keysND (collectGo allC acc names).2 := by
  induction names with
  | nil => intro acc h; simpa [collectGo]
  | cons n rest ih =>
    intro acc h
    simp only [collectGo]
    refine ih _ ?_
    rcases hm : exactMatches allC n with _ | ⟨m1, _ | ⟨m2, ms⟩⟩ <;>
      simp only [collectStep, hm]
    · exact h
    · exact keysND_jsMapSet _ _ _ h
    · exact h

/-- Characterization of the `duplicates` map. -/
theorem collectMatches_fst_alookup (allC : List Component) (names : List String)
    (k : String) (ms : List Component) :
    alookup (collectMatches allC names).1 k = some ms ↔
      k ∈ names ∧ ms = exactMatches allC k ∧ 1 < ms.length := by
  constructor
  · intro h
    by_cases hk : k ∈ names ∧ 1 < (exactMatches allC k).length
    · rw [collectMatches] at h
      rw [collectGo_fst_dup allC names _ k hk.1 hk.2] at h
      simp only [Option.some.injEq] at h
      exact ⟨hk.1, h.symm, h ▸ hk.2⟩
    · rw [collectMatches] at h
      rw [collectGo_fst_stable allC names _ k (by
        by_cases h1 : k ∈ names
        · refine Or.inr ?_
          by_contra hlen
          push_neg at hlen
          exact hk ⟨h1, hlen⟩
        · exact Or.inl h1)] at h
      simp [alookup] at h
  · rintro ⟨hk, hms, hlen⟩
    subst hms
    exact collectGo_fst_dup allC names _ k hk hlen

/-- Characterization of the `nameMap`. -/
theorem collectMatches_snd_alookup (allC : List Component) (names : List String)
    (k : String) (m : Component) :
    alookup (collectMatches allC names).2 k = some m ↔
      k ∈ names ∧ exactMatches allC k = [m] := by
  constructor
  · intro h
    by_cases hk : k ∈ names ∧ (exactMatches allC k).length = 1
    · rcases hm : exactMatches allC k with _ | ⟨m1, _ | ⟨m2, ms⟩⟩
      · rw [hm] at hk; simp at hk
      · rw [collectMatches] at h
        rw [collectGo_snd_single allC names _ k m1 hk.1 hm] at h
        simp only [Option.some.injEq] at h
        exact ⟨hk.1, by simp [hm, h]⟩
      · rw [hm] at hk; simp at hk
    · rw [collectMatches] at h
      rw [collectGo_snd_stable allC names _ k (by
        by_cases h1 : k ∈ names
        · exact Or.inr (fun he => hk ⟨h1, he⟩)
        · exact Or.inl h1)] at h
      simp [alookup] at h
  · rintro ⟨hk, hm⟩
    exact collectGo_snd_single allC names _ k m hk hm

theorem collectGo_fst_id (allC : List Component) (names : List String)
    (h : ∀ n ∈ names, (exactMatches allC n).length ≤ 1) :
    ∀ (acc : List (String × List Component) × List (String × Component)),
      (collectGo allC acc names).1 = acc.1 := by
  induction names with
  | nil => intro acc; simp [collectGo]
  | cons n rest ih =>
    intro acc
    simp only [collectGo]
    rw [ih (fun m hm => h m (List.mem_cons_of_mem _ hm))]
    rcases hm : exactMatches allC n with _ | ⟨m1, _ | ⟨m2, ms⟩⟩ <;>
      simp only [collectStep, hm]
    have := h n (List.mem_cons_self _ _)
    rw [hm] at this
    simp at this

/-- The `duplicates` map is empty iff no requested name is ambiguous. -/
theorem collectMatches_fst_empty (allC : List Component) (names : List String) :
    (collectMatches allC names).1 = [] ↔
      ∀ n ∈ names, (exactMatches allC n).length ≤ 1 := by
  constructor
  · intro h n hn
    by_contra hlen
    push_neg at hlen
    have := collectGo_fst_dup allC names ([], []) n hn hlen
    rw [collectMatches] at h
    rw [h] at this
    simp [alookup] at this
  · intro h
    rw [collectMatches, collectGo_fst_id allC names h]

/-! ## Lemmas: resolver control flow -/

/-- With a nonempty requested-name list and a section filter that passes (or no
    section), `fetchComponents` reaches the duplicate check and resolves from
    `allComponents`. -/
theorem resolveComponents_names_cons (fileId : String) (nh : String) (nt : List String)
    (sectionName : Option String) (downloadAll : Bool) (allC : List Component)
    (hsec : ∀ s, jsOrNullStr sectionName = some s →
      (allC.filter (fun c => strIncludes c.path s)).isEmpty = false) :
    resolveComponents fileId (nh :: nt) sectionName downloadAll allC =
      (if (collectMatches allC (nh :: nt)).1.isEmpty then
        if ((collectMatches allC (nh :: nt)).2.map (fun kv => kv.2)).isEmpty
        then .error .noneFound
        else .ok ((collectMatches allC (nh :: nt)).2.map (fun kv => kv.2))
      else .error (.duplicates ((collectMatches allC (nh :: nt)).1.map (fun kv =>
        ⟨kv.1, kv.2, kv.2.map (fun c => figmaLink fileId c.id)⟩)))) := by
  unfold resolveComponents
  cases hsecm : jsOrNullStr sectionName with
  | none => simp
  | some s =>
    have hf := hsec s hsecm
    simp [hf]

/-! ## Claim C1 -/

/-- C1: in explicit-name mode, when any requested name has more than one exact
    match among the extracted components, `fetchComponents` is fatal: every
    ambiguous requested name is collected with all of its exact matches and
    reported together (not fail-fast), each match carrying the deep link built
    from the file id and the component id, and the run exports nothing. -/
theorem c1_duplicate_requested_names_fatal
    (fileId : String) (names : List String) (sectionName : Option String)
    (downloadAll : Bool) (allC : List Component)
    (hsec : ∀ s, jsOrNullStr sectionName = some s →
      (allC.filter (fun c => strIncludes c.path s)).isEmpty = false)
    (hamb : ∃ n ∈ names, 1 < (exactMatches allC n).length) :
    ∃ entries,
      resolveComponents fileId names sectionName downloadAll allC =
        .error (.duplicates entries) ∧
      (∀ n, (∃ e ∈ entries, e.name = n) ↔
        (n ∈ names ∧ 1 < (exactMatches allC n).length)) ∧
      (∀ e ∈ entries, e.components = exactMatches allC e.name ∧
        1 < e.components.length ∧
        e.links = e.components.map (fun c => figmaLink fileId c.id)) ∧
      (∀ (ienv : IconEnv) (menv : ImgEnv) (cfg : Config) (fd : Node)
        (pageId pageName : JsStrOrArr),
        cfg.fileId = fileId → extractComponents fd pageId pageName = allC →
        runExport ienv menv cfg names sectionName downloadAll fd pageId pageName = []) := by
  obtain ⟨n₀, hn₀, hlen₀⟩ := hamb
  cases names with
  | nil => simp at hn₀
  | cons nh nt =>
    have hres := resolveComponents_names_cons fileId nh nt sectionName downloadAll allC hsec
    have hkeys : keysND (collectMatches allC (nh :: nt)).1 :=
      collectGo_fst_keysND allC (nh :: nt) ([], []) (by simp [keysND])
    have hlk : alookup (collectMatches allC (nh :: nt)).1 n₀ = some (exactMatches allC n₀) :=
      collectGo_fst_dup allC (nh :: nt) ([], []) n₀ hn₀ hlen₀
    have hne : (collectMatches allC (nh :: nt)).1 ≠ [] := alookup_ne_nil _ _ _ hlk
    have hemp : (collectMatches allC (nh :: nt)).1.isEmpty = false := by
      rcases hL : (collectMatches allC (nh :: nt)).1 with _ | ⟨x, xs⟩
      · exact absurd hL hne
      · simp [List.isEmpty]
    have hresE : resolveComponents fileId (nh :: nt) sectionName downloadAll allC =
        .error (.duplicates ((collectMatches allC (nh :: nt)).1.map (fun kv =>
          ⟨kv.1, kv.2, kv.2.map (fun c => figmaLink fileId c.id)⟩))) := by
      rw [hres, hemp]
      simp
    refine ⟨(collectMatches allC (nh :: nt)).1.map (fun kv =>
      ⟨kv.1, kv.2, kv.2.map (fun c => figmaLink fileId c.id)⟩), hresE, ?_, ?_, ?_⟩
    · intro n
      constructor
      · rintro ⟨e, he, hname⟩
        obtain ⟨kv, hkv, hekv⟩ := List.mem_map.mp he
        have hkv' : alookup (collectMatches allC (nh :: nt)).1 kv.1 = some kv.2 :=
          (mem_iff_alookup _ hkeys kv.1 kv.2).mp hkv
        obtain ⟨hmem, hval, hlen⟩ :=
          (collectMatches_fst_alookup allC (nh :: nt) kv.1 kv.2).mp hkv'
        have hnn : kv.1 = n := by rw [← hname, ← hekv]
        subst hnn
        exact ⟨hmem, by rwa [← hval]⟩
      · rintro ⟨hn, hlen⟩
        have hl : alookup (collectMatches allC (nh :: nt)).1 n =
            some (exactMatches allC n) :=
          collectGo_fst_dup allC (nh :: nt) ([], []) n hn hlen
        have hmem : (n, exactMatches allC n) ∈ (collectMatches allC (nh :: nt)).1 :=
          (mem_iff_alookup _ hkeys n _).mpr hl
        exact ⟨⟨n, exactMatches allC n, (exactMatches allC n).map
          (fun c => figmaLink fileId c.id)⟩,
          List.mem_map.mpr ⟨(n, exactMatches allC n), hmem, rfl⟩, rfl⟩
    · rintro e he
      obtain ⟨kv, hkv, hekv⟩ := List.mem_map.mp he
      have hkv' : alookup (collectMatches allC (nh :: nt)).1 kv.1 = some kv.2 :=
        (mem_iff_alookup _ hkeys kv.1 kv.2).mp hkv
      obtain ⟨hmem, hval, hlen⟩ :=
        (collectMatches_fst_alookup allC (nh :: nt) kv.1 kv.2).mp hkv'
      subst hekv
      exact ⟨hval, hlen, rfl⟩
    · intro ienv menv cfg fd pageId pageName hfid hex
      unfold runExport fetchComponents
      rw [hfid, hex, hresE]

/-- C1 witness: requesting `["icon/a", "icon/a"]` against two distinct
    components both named `icon/a` is fatal with a duplicates report. -/
theorem c1_duplicate_requested_names_fatal_witness :
    ∃ entries,
      resolveComponents "F" ["icon/a", "icon/a"] none false [exCompA, exCompA2] =
        .error (.duplicates entries) ∧
      (∃ e ∈ entries, e.name = "icon/a") := by
  obtain ⟨entries, hres, hiff, _, _⟩ :=
    c1_duplicate_requested_names_fatal "F" ["icon/a", "icon/a"] none false
      [exCompA, exCompA2]
      (by intro s h; simp [jsOrNullStr] at h)
      ⟨"icon/a", by simp, by decide⟩
  exact ⟨entries, hres, (hiff "icon/a").mpr ⟨by simp, by decide⟩⟩

/-! ## Claim C5 -/

theorem collectGo_id_zero (allC : List Component) (names : List String)
    (h : ∀ n ∈ names, exactMatches allC n = []) :
    ∀ acc, collectGo allC acc names = acc := by
  induction names with
  | nil => intro acc; simp [collectGo]
  | cons n rest ih =>
    intro acc
    simp only [collectGo]
    have hn := h n (List.mem_cons_self _ _)
    rw [show collectStep allC acc n = acc from by simp [collectStep, hn]]
    exact ih (fun m hm => h m (List.mem_cons_of_mem _ hm)) acc

/-- C5: a requested name with zero exact matches is omitted non-fatally (other
    names still resolve, the result is nonempty and contains no component with
    the missing name), while an empty final resolved set — all requested names
    unmatched, or all-mode over an empty extraction — is fatal
    (`process.exit(1)`, modelled as `FetchErr.noneFound`). -/
theorem c5_zero_match_asymmetry
    (fileId : String) (names : List String) (sectionName : Option String)
    (downloadAll : Bool) (allC : List Component)
    (hsec : ∀ s, jsOrNullStr sectionName = some s →
      (allC.filter (fun c => strIncludes c.path s)).isEmpty = false)
    (hnames : names ≠ [])
    (hnodup : ∀ n ∈ names, (exactMatches allC n).length ≤ 1) :
    ((∃ n ∈ names, ∃ m, exactMatches allC n = [m]) →
      ∃ l, resolveComponents fileId names sectionName downloadAll allC = .ok l ∧
        l ≠ [] ∧
        (∀ c ∈ l, ∃ n ∈ names, exactMatches allC n = [c]) ∧
        (∀ n ∈ names, exactMatches allC n = [] → ∀ c ∈ l, c.name ≠ n)) ∧
    ((∀ n ∈ names, exactMatches allC n = []) →
      resolveComponents fileId names sectionName downloadAll allC =
        .error .noneFound) ∧
    (resolveComponents fileId [] none true [] = .error .noneFound) := by
  cases names with
  | nil => exact absurd rfl hnames
  | cons nh nt =>
    have hres := resolveComponents_names_cons fileId nh nt sectionName downloadAll allC hsec
    have hdups : (collectMatches allC (nh :: nt)).1 = [] :=
      (collectMatches_fst_empty allC (nh :: nt)).mpr hnodup
    have hkeys2 : keysND (collectMatches allC (nh :: nt)).2 :=
      collectGo_snd_keysND allC (nh :: nt) ([], []) (by simp [keysND])
    refine ⟨?_, ?_, ?_⟩
    · rintro ⟨n₁, hn₁, m, hm⟩
      have hlk : alookup (collectMatches allC (nh :: nt)).2 n₁ = some m :=
        collectGo_snd_single allC (nh :: nt) ([], []) n₁ m hn₁ hm
      have hne : (collectMatches allC (nh :: nt)).2 ≠ [] := alookup_ne_nil _ _ _ hlk
      have hmapne : ((collectMatches allC (nh :: nt)).2.map (fun kv => kv.2)) ≠ [] := by
        intro h
        exact hne (List.map_eq_nil_iff.mp h)
      have hmapemp :
          ((collectMatches allC (nh :: nt)).2.map (fun kv => kv.2)).isEmpty = false := by
        rcases hL : (collectMatches allC (nh :: nt)).2.map (fun kv => kv.2) with _ | ⟨x, xs⟩
        · exact absurd hL hmapne
        · rw [hL]
          rfl
      refine ⟨(collectMatches allC (nh :: nt)).2.map (fun kv => kv.2), ?_, hmapne, ?_, ?_⟩
      · rw [hres, hdups]
        simp [hmapemp]
      · intro c hc
        obtain ⟨kv, hkv, hckv⟩ := List.mem_map.mp hc
        have hkv' : alookup (collectMatches allC (nh :: nt)).2 kv.1 = some kv.2 :=
          (mem_iff_alookup _ hkeys2 kv.1 kv.2).mp hkv
        obtain ⟨hmem, hval⟩ :=
          (collectMatches_snd_alookup allC (nh :: nt) kv.1 kv.2).mp hkv'
        exact ⟨kv.1, hmem, by rwa [hckv] at hval⟩
      · intro n hn hzero c hc hcn
        obtain ⟨kv, hkv, hckv⟩ := List.mem_map.mp hc
        have hkv' : alookup (collectMatches allC (nh :: nt)).2 kv.1 = some kv.2 :=
          (mem_iff_alookup _ hkeys2 kv.1 kv.2).mp hkv
        obtain ⟨hmem, hval⟩ :=
          (collectMatches_snd_alookup allC (nh :: nt) kv.1 kv.2).mp hkv'
        have hcin : c ∈ exactMatches allC kv.1 := by
          rw [hval, hckv]
          exact List.mem_singleton_self _
        have hname : c.name = kv.1 := by
          have := List.mem_filter.mp hcin
          simpa using this.2
      
        rw [hcn] at hname
        rw [hname] at hzero
        rw [hzero] at hval
        simp at hval
    · intro hall
      have hid : collectMatches allC (nh :: nt) = ([], []) := by
        rw [collectMatches]
        exact collectGo_id_zero allC (nh :: nt) hall ([], [])
      rw [hres, hid]
      simp
    · rfl

/-- C5 witness: `["img/b", "icon/nope"]` resolves non-fatally to a nonempty
    set while `["icon/nope"]` alone is fatal. -/
theorem c5_zero_match_asymmetry_witness :
    (∃ l, resolveComponents "F" ["img/b", "icon/nope"] none false [exCompA, exCompB] =
      .ok l ∧ l ≠ []) ∧
    resolveComponents "F" ["icon/nope"] none false [exCompA, exCompB] =
      .error .noneFound := by
  have h1 := c5_zero_match_asymmetry "F" ["img/b", "icon/nope"] none false
    [exCompA, exCompB]
    (by intro s h; simp [jsOrNullStr] at h)
    (by simp)
    (by intro n hn; fin_cases hn <;> decide)
  obtain ⟨l, hl, hlne, _, _⟩ := h1.1 ⟨"img/b", by simp, exCompB, by decide⟩
  have h2 := c5_zero_match_asymmetry "F" ["icon/nope"] none false [exCompA, exCompB]
    (by intro s h; simp [jsOrNullStr] at h)
    (by simp)
    (by intro n hn; fin_cases hn; decide)
  exact ⟨⟨l, hl, hlne⟩, h2.2.1 (by intro n hn; fin_cases hn; decide)⟩

/-! ## Claim C10 -/

/-- C10: when both a `--section` value and explicit component names are given,
    the resolved set is computed by exact-name matching over all extracted
    components — the earlier section filtering is discarded (provided the
    section filter itself is nonempty, which is checked first). -/
theorem c10_names_override_section
    (fileId : String) (names : List String) (s : String) (downloadAll : Bool)
    (allC : List Component)
    (hnames : names ≠ [])
    (hsec : (allC.filter (fun c => strIncludes c.path s)).isEmpty = false) :
    resolveComponents fileId names (some s) downloadAll allC =
      resolveComponents fileId names none downloadAll allC := by
  cases names with
  | nil => exact absurd rfl hnames
  | cons nh nt =>
    by_cases hs : strIsEmpty s = true
    · have hnone : jsOrNullStr (some s) = none := by simp [jsOrNullStr, hs]
      unfold resolveComponents
      rw [hnone]
      rfl
    · rw [resolveComponents_names_cons fileId nh nt (some s) downloadAll allC
        (by
          intro s' hs'
          simp only [jsOrNullStr, hs, Bool.false_eq_true, if_neg] at hs'
          simp only [if_false, Option.some.injEq] at hs'
          rw [← hs']
          exact hsec),
        resolveComponents_names_cons fileId nh nt none downloadAll allC
        (by intro s' hs'; simp [jsOrNullStr] at hs')]

/-- C10 witness: the unique match of `img/b` lies outside section `Sec1`, yet
    with `--section Sec1` it is still resolved (the section filter passes via
    the unrelated `icon/a` component). -/
theorem c10_names_override_section_witness :
    resolveComponents "F" ["img/b"] (some "Sec1") false [exCompA, exCompB] =
      resolveComponents "F" ["img/b"] none false [exCompA, exCompB] ∧
    resolveComponents "F" ["img/b"] none false [exCompA, exCompB] = .ok [exCompB] ∧
    strIncludes exCompB.path "Sec1" = false := by
  refine ⟨c10_names_override_section "F" ["img/b"] "Sec1" false [exCompA, exCompB]
    (by simp) (by decide), by rfl, by decide⟩

/-! ## Claim C6 -/

theorem groupByName_alookup (l : List Component) :
    ∀ (acc : List (String × List Component)) (k : String),
      alookup (l.foldl (fun m c => jsMapAppend m c.name c) acc) k =
        (match alookup acc k, l.filter (fun c => c.name == k) with
         | none, [] => none
         | o, f => some (o.getD [] ++ f)) := by
  induction l with
  | nil =>
    intro acc k
    cases h : alookup acc k <;> simp [h]
  | cons c rest ih =>
    intro acc k
    simp only [List.foldl_cons]
    rw [ih]
    by_cases hck : c.name = k
    · rw [alookup_jsMapAppend]
      simp only [if_pos hck.symm]
      subst hck
      cases h : alookup acc c.name <;>
        simp [List.filter_cons, h]
    · rw [alookup_jsMapAppend]
      have : ¬ (k = c.name) := fun he => hck he.symm
      simp only [if_neg this]
      have hfilter : (c :: rest).filter (fun x => x.name == k) =
          rest.filter (fun x => x.name == k) := by
        simp [List.filter_cons, hck]
      rw [hfilter]

theorem groupByName_keysND (l : List Component) :
    ∀ (acc : List (String × List Component)), keysND acc →
      keysND (l.foldl (fun m c => jsMapAppend m c.name c) acc) := by
  induction l with
  | nil => intro acc h; simpa
  | cons c rest ih =>
    intro acc h
    simp only [List.foldl_cons]
    exact ih _ (keysND_jsMapAppend _ _ _ h)

/-- C6: the duplicate reporter only ever considers components whose name
    starts with `icon/` or `img/`: the reported groups are exactly the names
    carried by two or more such components (with the full within-name match
    list), and every component in a reported group carries exactly the
    reported name and one of the two prefixes — a component outside both
    namespaces never appears in any group. -/
theorem c6_duplicate_reporter_scope (allC : List Component) :
    (∀ (n : String) (cs : List Component),
      (n, cs) ∈ findDuplicateComponents allC ↔
        (cs = (relevantComponents allC).filter (fun c => c.name == n) ∧
          2 ≤ cs.length)) ∧
    (∀ (n : String) (cs : List Component) (c : Component),
      (n, cs) ∈ findDuplicateComponents allC → c ∈ cs →
        c.name = n ∧
        (strStartsWith c.name "icon/" || strStartsWith c.name "img/") = true) := by
  have hkeys : keysND (groupByName (relevantComponents allC)) :=
    groupByName_keysND (relevantComponents allC) [] (by simp [keysND])
  have hgroup : ∀ (n : String) (cs : List Component),
      (n, cs) ∈ groupByName (relevantComponents allC) ↔
        (cs = (relevantComponents allC).filter (fun c => c.name == n) ∧ cs ≠ []) := by
    intro n cs
    rw [mem_iff_alookup _ hkeys]
    rw [groupByName, groupByName_alookup (relevantComponents allC) [] n]
    rcases hf : (relevantComponents allC).filter (fun c => c.name == n) with _ | ⟨x, xs⟩
    · rw [hf]
      simp [alookup]
    · rw [hf]
      simp only [alookup, Option.getD_none, List.nil_append, Option.some.injEq]
      constructor
      · intro h
        exact ⟨h.symm, by rw [← h]; simp⟩
      · rintro ⟨h, _⟩
        exact h.symm
  have hmain : ∀ (n : String) (cs : List Component),
      (n, cs) ∈ findDuplicateComponents allC ↔
        (cs = (relevantComponents allC).filter (fun c => c.name == n) ∧
          2 ≤ cs.length) := by
    intro n cs
    unfold findDuplicateComponents
    rw [List.mem_filter]
    constructor
    · rintro ⟨hmem, hlen⟩
      obtain ⟨hcs, _⟩ := (hgroup n cs).mp hmem
      simp only [decide_eq_true_eq] at hlen
      exact ⟨hcs, by omega⟩
    · rintro ⟨hcs, hlen⟩
      refine ⟨(hgroup n cs).mpr ⟨hcs, ?_⟩, ?_⟩
      · intro he
        rw [he] at hlen
        simp at hlen
      · simp only [decide_eq_true_eq]
        omega
  refine ⟨hmain, ?_⟩
  intro n cs c hmem hc
  obtain ⟨hcs, _⟩ := (hmain n cs).mp hmem
  rw [hcs] at hc
  have h1 := List.mem_filter.mp hc
  have h2 := List.mem_filter.mp h1.1
  refine ⟨by simpa using h1.2, by simpa using h2.2⟩

/-- C6 witness: two components named `icon/a` are reported as one group, and
    a `button/a` component shares no group with them. -/
theorem c6_duplicate_reporter_scope_witness :
    ("icon/a", [exCompA, exCompA2]) ∈
      findDuplicateComponents [exCompA, exCompA2, exCompB, exCompBtn] ∧
    exCompBtn.name = "button/a" := by
  refine ⟨((c6_duplicate_reporter_scope
    [exCompA, exCompA2, exCompB, exCompBtn]).1 "icon/a" [exCompA, exCompA2]).mpr
    ⟨by rfl, by decide⟩, by rfl⟩

/-! ## Lemmas: Android image pipeline -/

theorem androidVariant_spec (env : ImgEnv) (cfg : Config) (c : Component)
    (dpi : String) (st : FsState) (failed : Bool) :
    (androidVariant env cfg c dpi st failed).1.attempts =
      st.attempts ++ [(c.name, dpi)] ∧
    (androidVariant env cfg c dpi st failed).1.dirs =
      st.dirs ++ [joinPath cfg.images.path ("drawable-" ++ dpi)] ∧
    (androidVariant env cfg c dpi st failed).1.writes =
      st.writes ++ (androidWriteOf env cfg c dpi).toList ∧
    (androidVariant env cfg c dpi st failed).2 =
      (failed || !(androidWriteOf env cfg c dpi).isSome) := by
  unfold androidVariant androidWriteOf
  rcases hf : env.fetchUrl c.id "png" (androidScale dpi) with _ | _ | u <;>
    simp only [hf]
  · simp
  · simp
  · rcases hd : env.download u with e | data <;> simp only [hd]
    · simp
    · by_cases hw : (cfg.images.format == "webp") = true
      · simp only [hw, if_true]
        rcases he : env.encodeWebp data cfg.images.quality with e2 | w <;>
          simp [he]
      · simp [hw]

theorem androidFold_spec (env : ImgEnv) (cfg : Config) (c : Component) :
    ∀ (dpis : List String) (st : FsState) (failed : Bool),
      ((dpis.foldl (fun acc dpi => androidVariant env cfg c dpi acc.1 acc.2)
          (st, failed)).1.attempts =
        st.attempts ++ dpis.map (fun d => (c.name, d))) ∧
      ((dpis.foldl (fun acc dpi => androidVariant env cfg c dpi acc.1 acc.2)
          (st, failed)).1.dirs =
        st.dirs ++ dpis.map (fun d => joinPath cfg.images.path ("drawable-" ++ d))) ∧
      ((dpis.foldl (fun acc dpi => androidVariant env cfg c dpi acc.1 acc.2)
          (st, failed)).1.writes =
        st.writes ++ dpis.filterMap (androidWriteOf env cfg c)) ∧
      ((dpis.foldl (fun acc dpi => androidVariant env cfg c dpi acc.1 acc.2)
          (st, failed)).2 =
        (failed || dpis.any (fun d => !(androidWriteOf env cfg c d).isSome))) := by
  intro dpis
  induction dpis with
  | nil => intro st failed; simp
  | cons d rest ih =>
    intro st failed
    simp only [List.foldl_cons]
    obtain ⟨h1, h2, h3, h4⟩ := androidVariant_spec env cfg c d st failed
    obtain ⟨g1, g2, g3, g4⟩ := ih (androidVariant env cfg c d st failed).1
      (androidVariant env cfg c d st failed).2
    refine ⟨?_, ?_, ?_, ?_⟩
    · rw [g1, h1]
      simp
    · rw [g2, h2]
      simp
    · rw [g3, h3]
      rcases hw : androidWriteOf env cfg c d with _ | w <;>
        simp [List.filterMap_cons, hw]
    · rw [g4, h4]
      simp [Bool.or_assoc]

theorem processImagesAndroidGo_spec (env : ImgEnv) (cfg : Config) :
    ∀ (comps : List Component) (st : FsState) (processed : List String),
      (processImagesAndroidGo env cfg comps st processed).aborted = false ∧
      (processImagesAndroidGo env cfg comps st processed).st.attempts =
        st.attempts ++ comps.flatMap (fun c =>
          (dpisToProcess cfg.images.skipDpi).map (fun d => (c.name, d))) ∧
      (processImagesAndroidGo env cfg comps st processed).st.dirs =
        st.dirs ++ comps.flatMap (fun _ =>
          (dpisToProcess cfg.images.skipDpi).map (fun d =>
            joinPath cfg.images.path ("drawable-" ++ d))) ∧
      (processImagesAndroidGo env cfg comps st processed).st.writes =
        st.writes ++ comps.flatMap (fun c =>
          (dpisToProcess cfg.images.skipDpi).filterMap (androidWriteOf env cfg c)) ∧
      (∀ n, n ∈ (processImagesAndroidGo env cfg comps st processed).processed ↔
        (n ∈ processed ∨ ∃ c ∈ comps, c.name = n ∧
          ∀ d ∈ dpisToProcess cfg.images.skipDpi,
            (androidWriteOf env cfg c d).isSome = true)) := by
  intro comps
  induction comps with
  | nil =>
    intro st processed
    simp [processImagesAndroidGo]
  | cons c rest ih =>
    intro st processed
    obtain ⟨h1, h2, h3, h4⟩ := androidFold_spec env cfg c
      (dpisToProcess cfg.images.skipDpi) st false
    simp only [processImagesAndroidGo, processAndroidComponent]
    obtain ⟨g0, g1, g2, g3, g4⟩ := ih
      ((dpisToProcess cfg.images.skipDpi).foldl
        (fun acc dpi => androidVariant env cfg c dpi acc.1 acc.2) (st, false)).1
      (if ((dpisToProcess cfg.images.skipDpi).foldl
          (fun acc dpi => androidVariant env cfg c dpi acc.1 acc.2) (st, false)).2
        then processed else jsSetAdd processed c.name)
    refine ⟨g0, ?_, ?_, ?_, ?_⟩
    · rw [g1, h1]
      simp
    · rw [g2, h2]
      simp
    · rw [g3, h3]
      simp
    · intro n
      rw [g4 n]
      rw [h4]
      simp only [Bool.false_or]
      by_cases hany : ((dpisToProcess cfg.images.skipDpi).any
          (fun d => !(androidWriteOf env cfg c d).isSome)) = true
      · obtain ⟨d₀, hd₀, hnot⟩ := List.any_eq_true.mp hany
        simp only [hany, if_true]
        constructor
        · rintro (hp | hex)
          · exact Or.inl hp
          · exact Or.inr (by
              obtain ⟨c', hc', hrest⟩ := hex
              exact ⟨c', List.mem_cons_of_mem _ hc', hrest⟩)
        · rintro (hp | ⟨c', hc', hn, hall⟩)
          · exact Or.inl hp
          · rcases List.mem_cons.mp hc' with he | hm
            · subst he
              have := hall d₀ hd₀
              simp only [this] at hnot
              simp at hnot
            · exact Or.inr ⟨c', hm, hn, hall⟩
      · have hall : ∀ d ∈ dpisToProcess cfg.images.skipDpi,
            (androidWriteOf env cfg c d).isSome = true := by
          intro d hd
          by_contra hns
          exact hany (List.any_eq_true.mpr ⟨d, hd, by
            simp only [Bool.not_eq_true] at hns
            simp [hns]⟩)
        simp only [Bool.not_eq_true] at hany
        simp only [hany, Bool.false_eq_true, if_false]
        rw [mem_jsSetAdd]
        constructor
        · rintro ((hp | he) | ⟨c', hc', hn, hall'⟩)
          · exact Or.inl hp
          · exact Or.inr ⟨c, List.mem_cons_self _ _, he.symm, hall⟩
          · exact Or.inr ⟨c', List.mem_cons_of_mem _ hc', hn, hall'⟩
        · rintro (hp | ⟨c', hc', hn, hall'⟩)
          · exact Or.inl (Or.inl hp)
          · rcases List.mem_cons.mp hc' with heq | hm
            · subst heq
              exact Or.inl (Or.inr hn.symm)
            · exact Or.inr ⟨c', hm, hn, hall'⟩

/-! ## Claim C8 -/

theorem strAppend_cancel_left (a x y : String) (h : a ++ x = a ++ y) : x = y := by
  have hd : (a ++ x).data = (a ++ y).data := congrArg String.data h
  simp only [String.data_append] at hd
  have hxy := List.append_cancel_left hd
  cases x
  cases y
  exact congrArg String.mk hxy

theorem joinPath_right_inj (p d1 d2 : String) (h : joinPath p d1 = joinPath p d2) :
    d1 = d2 :=
  strAppend_cancel_left (p ++ "/") d1 d2 h

theorem androidWriteOf_path (env : ImgEnv) (cfg : Config) (c : Component)
    (d : String) (w : String × WriteData)
    (h : androidWriteOf env cfg c d = some w) :
    w.1 = joinPath (joinPath cfg.images.path ("drawable-" ++ d))
      (fileNameBaseOf cfg c ++ "." ++ cfg.images.format) := by
  unfold androidWriteOf at h
  rcases hf : env.fetchUrl c.id "png" (androidScale d) with _ | _ | u <;>
    simp only [hf] at h
  · exact absurd h (by simp)
  · exact absurd h (by simp)
  · rcases hdl : env.download u with e | data <;> simp only [hdl] at h
    · exact absurd h (by simp)
    · by_cases hw : (cfg.images.format == "webp") = true
      · rw [if_pos hw] at h
        rcases he : env.encodeWebp data cfg.images.quality with e2 | ww <;>
          simp only [he] at h
        · exact absurd h (by simp)
        · simp only [Option.some.injEq] at h
          rw [← h]
      · rw [if_neg hw] at h
        simp only [Option.some.injEq] at h
        rw [← h]

theorem filterMap_androidWriteOf_fst (env : ImgEnv) (cfg : Config) (c : Component) :
    ∀ (dpis : List String),
      (∀ d ∈ dpis, (androidWriteOf env cfg c d).isSome = true) →
      ((dpis.filterMap (androidWriteOf env cfg c)).map Prod.fst) =
        dpis.map (fun d => joinPath (joinPath cfg.images.path ("drawable-" ++ d))
          (fileNameBaseOf cfg c ++ "." ++ cfg.images.format)) := by
  intro dpis
  induction dpis with
  | nil => intro _; simp
  | cons d rest ih =>
    intro hall
    have hs := hall d (List.mem_cons_self _ _)
    rcases hw : androidWriteOf env cfg c d with _ | w
    · rw [hw] at hs; simp at hs
    · simp only [List.filterMap_cons, hw, List.map_cons]
      rw [ih (fun x hx => hall x (List.mem_cons_of_mem _ hx))]
      rw [androidWriteOf_path env cfg c d w hw]

/-- C8: the processed Android DPI variants are exactly the fixed table keys
    minus the skip-list, in table order; with `skipDpi = ["ldpi","mdpi"]` each
    resolved image component touches exactly the four remaining
    `drawable-<dpi>` directories (one file each when all variants succeed) and
    the ldpi/mdpi directories are never created. -/
theorem c8_dpi_skip_list
    (env : ImgEnv) (cfg : Config) (comps : List Component)
    (hplat : cfg.platform = "android")
    (hskip : cfg.images.skipDpi = some ["ldpi", "mdpi"]) :
    dpisToProcess cfg.images.skipDpi = ["hdpi", "xhdpi", "xxhdpi", "xxxhdpi"] ∧
    (∀ skip : List String, dpisToProcess (some skip) =
      (ANDROID_DPI_SCALES.map Prod.fst).filter (fun d => !skip.contains d)) ∧
    (processImages env cfg comps).st.dirs =
      (comps.filter (fun c => strStartsWith c.name "img/")).flatMap (fun _ =>
        ["hdpi", "xhdpi", "xxhdpi", "xxxhdpi"].map (fun d =>
          joinPath cfg.images.path ("drawable-" ++ d))) ∧
    joinPath cfg.images.path "drawable-ldpi" ∉ (processImages env cfg comps).st.dirs ∧
    joinPath cfg.images.path "drawable-mdpi" ∉ (processImages env cfg comps).st.dirs ∧
    ((∀ c ∈ comps.filter (fun c => strStartsWith c.name "img/"),
        ∀ d ∈ dpisToProcess cfg.images.skipDpi,
          (androidWriteOf env cfg c d).isSome = true) →
      ((processImages env cfg comps).st.writes.map Prod.fst) =
        (comps.filter (fun c => strStartsWith c.name "img/")).flatMap (fun c =>
          ["hdpi", "xhdpi", "xxhdpi", "xxxhdpi"].map (fun d =>
            joinPath (joinPath cfg.images.path ("drawable-" ++ d))
              (fileNameBaseOf cfg c ++ "." ++ cfg.images.format)))) := by
  have hdpis : dpisToProcess cfg.images.skipDpi = ["hdpi", "xhdpi", "xxhdpi", "xxxhdpi"] := by
    rw [hskip]
    rfl
  have hplat' : (cfg.platform == "android") = true := by
    rw [hplat]
    rfl
  have hrun : processImages env cfg comps =
      processImagesAndroidGo env cfg
        (comps.filter (fun c => strStartsWith c.name "img/")) FsState.empty [] := by
    unfold processImages
    rw [if_pos hplat']
  obtain ⟨_, _, hdirs, hwrites, _⟩ := processImagesAndroidGo_spec env cfg
    (comps.filter (fun c => strStartsWith c.name "img/")) FsState.empty []
  refine ⟨hdpis, ?_, ?_, ?_, ?_, ?_⟩
  · intro skip
    rfl
  · rw [hrun, hdirs, hdpis]
    simp [FsState.empty]
  · rw [hrun, hdirs, hdpis]
    simp only [FsState.empty, List.nil_append]
    intro hmem
    obtain ⟨c, _, hin⟩ := List.mem_flatMap.mp hmem
    obtain ⟨d, hd, heq⟩ := List.mem_map.mp hin
    have := joinPath_right_inj _ _ _ heq.symm
    fin_cases hd <;> simp_all
  · rw [hrun, hdirs, hdpis]
    simp only [FsState.empty, List.nil_append]
    intro hmem
    obtain ⟨c, _, hin⟩ := List.mem_flatMap.mp hmem
    obtain ⟨d, hd, heq⟩ := List.mem_map.mp hin
    have := joinPath_right_inj _ _ _ heq.symm
    fin_cases hd <;> simp_all
  · intro hall
    rw [hrun, hwrites]
    simp only [FsState.empty, List.nil_append]
    rw [List.map_flatMap]
    apply List.flatMap_congr  
    intro c hc
    rw [filterMap_androidWriteOf_fst env cfg c _ (hall c hc), hdpis]

/-! ## Lemmas: iOS image pipeline -/

theorem iosScalesGo_noThrow (env : ImgEnv) (cfg : Config) (c : Component)
    (base assetPath : String) :
    ∀ (scales : List (String × Rat)) (st : FsState) (failed : Bool),
      (∀ sf ∈ scales, env.fetchUrl c.id cfg.images.format sf.2 ≠ .apiThrow) →
      ∃ st' failed',
        iosScalesGo env cfg c base assetPath scales st failed = .ok (st', failed') ∧
        st'.attempts = st.attempts ++ scales.map (fun sf => (c.name, sf.1)) ∧
        st'.dirs = st.dirs ∧
        st'.writes = st.writes ++ scales.filterMap (iosWriteOf env cfg c base assetPath) ∧
        failed' = (failed ||
          scales.any (fun sf => !(iosWriteOf env cfg c base assetPath sf).isSome)) := by
  intro scales
  induction scales with
  | nil =>
    intro st failed _
    exact ⟨st, failed, rfl, by simp, rfl, by simp, by simp⟩
  | cons sf rest ih =>
    intro st failed h
    obtain ⟨scale, factor⟩ := sf
    have hhd := h (scale, factor) (List.mem_cons_self _ _)
    simp only [iosScalesGo, iosVariant]
    rcases hf : env.fetchUrl c.id cfg.images.format factor with _ | _ | u
    · exact absurd hf hhd
    · simp only []
      obtain ⟨st', failed', hgo, ha, hd, hw, hfl⟩ := ih
        { st with attempts := st.attempts ++ [(c.name, scale)] } true
        (fun x hx => h x (List.mem_cons_of_mem _ hx))
      refine ⟨st', failed', hgo, ?_, hd, ?_, ?_⟩
      · rw [ha]
        simp
      · rw [hw]
        have : iosWriteOf env cfg c base assetPath (scale, factor) = none := by
          unfold iosWriteOf
          simp [hf]
        simp [this, List.filterMap_cons]
      · rw [hfl]
        have : iosWriteOf env cfg c base assetPath (scale, factor) = none := by
          unfold iosWriteOf
          simp [hf]
        simp [this]
    · rcases hdl : env.download u with e | data
      · simp only [hdl]
        obtain ⟨st', failed', hgo, ha, hd, hw, hfl⟩ := ih
          { st with attempts := st.attempts ++ [(c.name, scale)] } true
          (fun x hx => h x (List.mem_cons_of_mem _ hx))
        refine ⟨st', failed', hgo, ?_, hd, ?_, ?_⟩
        · rw [ha]
          simp
        · rw [hw]
          have : iosWriteOf env cfg c base assetPath (scale, factor) = none := by
            unfold iosWriteOf
            simp [hf, hdl]
          simp [this, List.filterMap_cons]
        · rw [hfl]
          have : iosWriteOf env cfg c base assetPath (scale, factor) = none := by
            unfold iosWriteOf
            simp [hf, hdl]
          simp [this]
      · simp only [hdl]
        obtain ⟨st', failed', hgo, ha, hd, hw, hfl⟩ := ih
          { st with
            attempts := st.attempts ++ [(c.name, scale)]
            writes := st.writes ++
              [(joinPath assetPath (iosScaleFileName base scale ++ "." ++ cfg.images.format),
                .raw data)] } failed
          (fun x hx => h x (List.mem_cons_of_mem _ hx))
        have hwr : iosWriteOf env cfg c base assetPath (scale, factor) =
            some (joinPath assetPath (iosScaleFileName base scale ++ "." ++ cfg.images.format),
              .raw data) := by
          unfold iosWriteOf
          simp [hf, hdl]
        refine ⟨st', failed', hgo, ?_, hd, ?_, ?_⟩
        · rw [ha]
          simp
        · rw [hw]
          simp [hwr, List.filterMap_cons]
        · rw [hfl]
          simp [hwr]

theorem iosScalesGo_throw (env : ImgEnv) (cfg : Config) (c : Component)
    (base assetPath : String) :
    ∀ (scales : List (String × Rat)) (st : FsState) (failed : Bool),
      (∃ sf ∈ scales, env.fetchUrl c.id cfg.images.format sf.2 = .apiThrow) →
      ∃ stE,
        iosScalesGo env cfg c base assetPath scales st failed = .error stE ∧
        stE.attempts <+: st.attempts ++ scales.map (fun sf => (c.name, sf.1)) ∧
        stE.dirs = st.dirs ∧
        st.writes <+: stE.writes := by
  intro scales
  induction scales with
  | nil =>
    intro st failed h
    simp at h
  | cons sf rest ih =>
    intro st failed h
    obtain ⟨scale, factor⟩ := sf
    simp only [iosScalesGo, iosVariant]
    rcases hf : env.fetchUrl c.id cfg.images.format factor with _ | _ | u
    · refine ⟨{ st with attempts := st.attempts ++ [(c.name, scale)] }, rfl, ?_, rfl,
        List.prefix_rfl⟩
      simp only [List.map_cons]
      rw [show st.attempts ++ (c.name, scale) :: rest.map (fun sf => (c.name, sf.1)) =
        (st.attempts ++ [(c.name, scale)]) ++ rest.map (fun sf => (c.name, sf.1)) from by simp]
      exact List.prefix_append _ _
    · have hrest : ∃ sf ∈ rest, env.fetchUrl c.id cfg.images.format sf.2 = .apiThrow := by
        obtain ⟨sf₀, hsf₀, hthrow⟩ := h
        rcases List.mem_cons.mp hsf₀ with he | hm
        · rw [he] at hthrow
          simp only at hthrow
          rw [hthrow] at hf
          simp at hf
        · exact ⟨sf₀, hm, hthrow⟩
      obtain ⟨stE, hgo, ha, hd, hwpre⟩ := ih
        { st with attempts := st.attempts ++ [(c.name, scale)] } true hrest
      refine ⟨stE, hgo, ?_, hd, hwpre⟩
      refine ha.trans ?_
      simp
    · have hrest : ∃ sf ∈ rest, env.fetchUrl c.id cfg.images.format sf.2 = .apiThrow := by
        obtain ⟨sf₀, hsf₀, hthrow⟩ := h
        rcases List.mem_cons.mp hsf₀ with he | hm
        · rw [he] at hthrow
          simp only at hthrow
          rw [hthrow] at hf
          simp at hf
        · exact ⟨sf₀, hm, hthrow⟩
      rcases hdl : env.download u with e | data
      · simp only [hdl]
        obtain ⟨stE, hgo, ha, hd, hwpre⟩ := ih
          { st with attempts := st.attempts ++ [(c.name, scale)] } true hrest
        refine ⟨stE, hgo, ?_, hd, hwpre⟩
        refine ha.trans ?_
        simp
      · simp only [hdl]
        obtain ⟨stE, hgo, ha, hd, hwpre⟩ := ih
          { st with
            attempts := st.attempts ++ [(c.name, scale)]
            writes := st.writes ++
              [(joinPath assetPath (iosScaleFileName base scale ++ "." ++ cfg.images.format),
                .raw data)] } failed hrest
        refine ⟨stE, hgo, ?_, hd, ?_⟩
        · refine ha.trans ?_
          simp
        · exact (List.prefix_append _ _).trans hwpre

theorem processIosComponent_noThrow (env : ImgEnv) (cfg : Config) (c : Component)
    (st : FsState)
    (h : ∀ sf ∈ IOS_SCALES, env.fetchUrl c.id cfg.images.format sf.2 ≠ .apiThrow) :
    ∃ st' failed',
      processIosComponent env cfg c st = .ok (st', failed') ∧
      st'.attempts = st.attempts ++ IOS_SCALES.map (fun sf => (c.name, sf.1)) ∧
      st'.dirs = st.dirs ++
        [joinPath cfg.images.path (fileNameBaseOf cfg c ++ ".imageset")] ∧
      st'.writes = st.writes ++
        (IOS_SCALES.filterMap (iosWriteOf env cfg c (fileNameBaseOf cfg c)
          (joinPath cfg.images.path (fileNameBaseOf cfg c ++ ".imageset"))) ++
        [(joinPath (joinPath cfg.images.path (fileNameBaseOf cfg c ++ ".imageset"))
            "Contents.json",
          .json (createContentsJson (fileNameBaseOf cfg c) cfg.images.format))]) ∧
      failed' = IOS_SCALES.any (fun sf => !(iosWriteOf env cfg c (fileNameBaseOf cfg c)
        (joinPath cfg.images.path (fileNameBaseOf cfg c ++ ".imageset")) sf).isSome) := by
  obtain ⟨st₁, f₁, hgo, ha, hd, hw, hfl⟩ := iosScalesGo_noThrow env cfg c
    (fileNameBaseOf cfg c) (joinPath cfg.images.path (fileNameBaseOf cfg c ++ ".imageset"))
    IOS_SCALES
    { st with dirs := st.dirs ++
        [joinPath cfg.images.path (fileNameBaseOf cfg c ++ ".imageset")] } false h
  simp only [processIosComponent]
  rw [hgo]
  refine ⟨_, f₁, rfl, ?_, ?_, ?_, by rw [hfl]; simp⟩
  · simpa using ha
  · simpa using hd
  · simp only []
    rw [hw]
    simp

theorem processIosComponent_throw (env : ImgEnv) (cfg : Config) (c : Component)
    (st : FsState)
    (h : ∃ sf ∈ IOS_SCALES, env.fetchUrl c.id cfg.images.format sf.2 = .apiThrow) :
    ∃ stE,
      processIosComponent env cfg c st = .error stE ∧
      stE.attempts <+: st.attempts ++ IOS_SCALES.map (fun sf => (c.name, sf.1)) ∧
      st.writes <+: stE.writes := by
  obtain ⟨stE, hgo, ha, hd, hwpre⟩ := iosScalesGo_throw env cfg c
    (fileNameBaseOf cfg c) (joinPath cfg.images.path (fileNameBaseOf cfg c ++ ".imageset"))
    IOS_SCALES
    { st with dirs := st.dirs ++
        [joinPath cfg.images.path (fileNameBaseOf cfg c ++ ".imageset")] } false h
  simp only [processIosComponent]
  rw [hgo]
  exact ⟨stE, rfl, by simpa using ha, by simpa using hwpre⟩

theorem processImagesIosGo_aborted_iff (env : ImgEnv) (cfg : Config) :
    ∀ (comps : List Component) (st : FsState) (processed : List String),
      (processImagesIosGo env cfg comps st processed).aborted = true ↔
        ∃ c ∈ comps, ∃ sf ∈ IOS_SCALES,
          env.fetchUrl c.id cfg.images.format sf.2 = .apiThrow := by
  intro comps
  induction comps with
  | nil => intro st processed; simp [processImagesIosGo]
  | cons c rest ih =>
    intro st processed
    by_cases hc : ∃ sf ∈ IOS_SCALES, env.fetchUrl c.id cfg.images.format sf.2 = .apiThrow
    · obtain ⟨stE, herr, _, _⟩ := processIosComponent_throw env cfg c st hc
      simp only [processImagesIosGo]
      rw [herr]
      simp only []
      constructor
      · intro _
        obtain ⟨sf, hsf, ht⟩ := hc
        exact ⟨c, List.mem_cons_self _ _, sf, hsf, ht⟩
      · intro _
        trivial
    · push_neg at hc
      obtain ⟨st', failed', hok, _, _, _, _⟩ := processIosComponent_noThrow env cfg c st hc
      simp only [processImagesIosGo]
      rw [hok]
      simp only []
      rw [ih]
      constructor
      · rintro ⟨c', hc', hthrow⟩
        exact ⟨c', List.mem_cons_of_mem _ hc', hthrow⟩
      · rintro ⟨c', hc', sf, hsf, hthrow⟩
        rcases List.mem_cons.mp hc' with he | hm
        · subst he
          exact absurd hthrow (hc sf hsf)
        · exact ⟨c', hm, sf, hsf, hthrow⟩

theorem processImagesIosGo_noThrow (env : ImgEnv) (cfg : Config) :
    ∀ (comps : List Component) (st : FsState) (processed : List String),
      (∀ c ∈ comps, ∀ sf ∈ IOS_SCALES,
        env.fetchUrl c.id cfg.images.format sf.2 ≠ .apiThrow) →
      (processImagesIosGo env cfg comps st processed).aborted = false ∧
      (processImagesIosGo env cfg comps st processed).st.attempts =
        st.attempts ++ comps.flatMap (fun c =>
          IOS_SCALES.map (fun sf => (c.name, sf.1))) ∧
      (processImagesIosGo env cfg comps st processed).st.writes =
        st.writes ++ comps.flatMap (fun c =>
          IOS_SCALES.filterMap (iosWriteOf env cfg c (fileNameBaseOf cfg c)
            (joinPath cfg.images.path (fileNameBaseOf cfg c ++ ".imageset"))) ++
          [(joinPath (joinPath cfg.images.path (fileNameBaseOf cfg c ++ ".imageset"))
              "Contents.json",
            .json (createContentsJson (fileNameBaseOf cfg c) cfg.images.format))]) ∧
      (∀ n, n ∈ (processImagesIosGo env cfg comps st processed).processed ↔
        (n ∈ processed ∨ ∃ c ∈ comps, c.name = n ∧
          ∀ sf ∈ IOS_SCALES, (iosWriteOf env cfg c (fileNameBaseOf cfg c)
            (joinPath cfg.images.path (fileNameBaseOf cfg c ++ ".imageset")) sf).isSome =
              true)) := by
  intro comps
  induction comps with
  | nil =>
    intro st processed _
    simp [processImagesIosGo]
  | cons c rest ih =>
    intro st processed h
    have hc := h c (List.mem_cons_self _ _)
    obtain ⟨st', failed', hok, ha, _, hw, hfl⟩ := processIosComponent_noThrow env cfg c st hc
    simp only [processImagesIosGo]
    rw [hok]
    simp only []
    obtain ⟨g0, g1, g2, g3⟩ := ih st'
      (if failed' then processed else jsSetAdd processed c.name)
      (fun c' hc' => h c' (List.mem_cons_of_mem _ hc'))
    refine ⟨g0, ?_, ?_, ?_⟩
    · rw [g1, ha]
      simp
    · rw [g2, hw]
      simp
    · intro n
      rw [g3 n]
      by_cases hany : (IOS_SCALES.any (fun sf => !(iosWriteOf env cfg c
          (fileNameBaseOf cfg c)
          (joinPath cfg.images.path (fileNameBaseOf cfg c ++ ".imageset")) sf).isSome)) = true
      · obtain ⟨sf₀, hsf₀, hnot⟩ := List.any_eq_true.mp hany
        rw [hfl]
        simp only [hany, if_true]
        constructor
        · rintro (hp | ⟨c', hc', hn, hall⟩)
          · exact Or.inl hp
          · exact Or.inr ⟨c', List.mem_cons_of_mem _ hc', hn, hall⟩
        · rintro (hp | ⟨c', hc', hn, hall⟩)
          · exact Or.inl hp
          · rcases List.mem_cons.mp hc' with he | hm
            · subst he
              have := hall sf₀ hsf₀
              rw [this] at hnot
              simp at hnot
            · exact Or.inr ⟨c', hm, hn, hall⟩
      · have hall : ∀ sf ∈ IOS_SCALES, (iosWriteOf env cfg c (fileNameBaseOf cfg c)
            (joinPath cfg.images.path (fileNameBaseOf cfg c ++ ".imageset")) sf).isSome =
              true := by
          intro sf hsf
          by_contra hns
          exact hany (List.any_eq_true.mpr ⟨sf, hsf, by
            simp only [Bool.not_eq_true] at hns
            simp [hns]⟩)
        simp only [Bool.not_eq_true] at hany
        rw [hfl]
        simp only [hany, Bool.false_eq_true, if_false]
        rw [mem_jsSetAdd]
        constructor
        · rintro ((hp | he) | ⟨c', hc', hn, hall'⟩)
          · exact Or.inl hp
          · exact Or.inr ⟨c, List.mem_cons_self _ _, he.symm, hall⟩
          · exact Or.inr ⟨c', List.mem_cons_of_mem _ hc', hn, hall'⟩
        · rintro (hp | ⟨c', hc', hn, hall'⟩)
          · exact Or.inl (Or.inl hp)
          · rcases List.mem_cons.mp hc' with heq | hm
            · subst heq
              exact Or.inl (Or.inr hn.symm)
            · exact Or.inr ⟨c', hm, hn, hall'⟩

theorem processImagesIosGo_attempts_pre (env : ImgEnv) (cfg : Config) :
    ∀ (comps : List Component) (st : FsState) (processed : List String),
      (processImagesIosGo env cfg comps st processed).st.attempts <+:
        st.attempts ++ comps.flatMap (fun c =>
          IOS_SCALES.map (fun sf => (c.name, sf.1))) := by
  intro comps
  induction comps with
  | nil =>
    intro st processed
    simp [processImagesIosGo]
  | cons c rest ih =>
    intro st processed
    by_cases hc : ∃ sf ∈ IOS_SCALES, env.fetchUrl c.id cfg.images.format sf.2 = .apiThrow
    · obtain ⟨stE, herr, ha, _⟩ := processIosComponent_throw env cfg c st hc
      simp only [processImagesIosGo]
      rw [herr]
      simp only []
      refine ha.trans ?_
      rw [List.flatMap_cons, ← List.append_assoc]
      exact List.prefix_append _ _
    · push_neg at hc
      obtain ⟨st', failed', hok, ha, _, _, _⟩ := processIosComponent_noThrow env cfg c st hc
      simp only [processImagesIosGo]
      rw [hok]
      simp only []
      have := ih st' (if failed' then processed else jsSetAdd processed c.name)
      rw [ha] at this
      refine this.trans ?_
      simp

/-! ## Claim C2 -/

/-- C2 counterexample: on iOS, `getImageUrls` sits outside the per-variant try
    block, so when the 2x variant's url fetch throws, the 3x / ipad variants
    are never attempted and the whole run aborts — refuting the claim that a
    single variant's fetch failure never aborts the remaining variants.  The
    1x file already written persists. -/
theorem c2_counterexample_ios_fetch_throw_aborts :
    (processImages envIosThrow2x cfgIos [exImgA]).aborted = true ∧
    (processImages envIosThrow2x cfgIos [exImgA]).st.attempts =
      [("img/a", "1x"), ("img/a", "2x")] ∧
    ("img/a", "3x") ∉ (processImages envIosThrow2x cfgIos [exImgA]).st.attempts ∧
    (processImages envIosThrow2x cfgIos [exImgA]).st.writes =
      [("Assets.xcassets/a.imageset/a.png", .raw "data")] := by
  refine ⟨rfl, rfl, by decide, rfl⟩

/-- C2 (amended): on Android every variant failure (fetch, download or encode)
    is caught: all DPI variants of all image components are attempted
    regardless of failures, exactly the successful variants' files are
    written (successful writes of a failed component persist), and a
    component enters the processed set iff all of its variants succeeded.
    On iOS the same isolation holds for missing urls and download failures,
    but an exception thrown while fetching one variant's url aborts the
    remaining variants and components: the run aborts iff some variant's url
    fetch throws, the attempted list is always a prefix of the full
    component×scale product, and absent such throws all variants are
    attempted with processed = components whose variants all succeeded. -/
theorem c2_amended_variant_failure_isolation
    (env : ImgEnv) (cfg : Config) (comps : List Component) :
    (cfg.platform = "android" →
      (processImages env cfg comps).aborted = false ∧
      (processImages env cfg comps).st.attempts =
        (comps.filter (fun c => strStartsWith c.name "img/")).flatMap (fun c =>
          (dpisToProcess cfg.images.skipDpi).map (fun d => (c.name, d))) ∧
      (processImages env cfg comps).st.writes =
        (comps.filter (fun c => strStartsWith c.name "img/")).flatMap (fun c =>
          (dpisToProcess cfg.images.skipDpi).filterMap (androidWriteOf env cfg c)) ∧
      (∀ n, n ∈ (processImages env cfg comps).processed ↔
        ∃ c ∈ comps.filter (fun c => strStartsWith c.name "img/"), c.name = n ∧
          ∀ d ∈ dpisToProcess cfg.images.skipDpi,
            (androidWriteOf env cfg c d).isSome = true)) ∧
    (cfg.platform ≠ "android" →
      ((processImages env cfg comps).aborted = true ↔
        ∃ c ∈ comps.filter (fun c => strStartsWith c.name "img/"), ∃ sf ∈ IOS_SCALES,
          env.fetchUrl c.id cfg.images.format sf.2 = .apiThrow) ∧
      ((processImages env cfg comps).st.attempts <+:
        (comps.filter (fun c => strStartsWith c.name "img/")).flatMap (fun c =>
          IOS_SCALES.map (fun sf => (c.name, sf.1)))) ∧
      ((∀ c ∈ comps.filter (fun c => strStartsWith c.name "img/"), ∀ sf ∈ IOS_SCALES,
          env.fetchUrl c.id cfg.images.format sf.2 ≠ .apiThrow) →
        (processImages env cfg comps).aborted = false ∧
        (processImages env cfg comps).st.attempts =
          (comps.filter (fun c => strStartsWith c.name "img/")).flatMap (fun c =>
            IOS_SCALES.map (fun sf => (c.name, sf.1))) ∧
        (∀ n, n ∈ (processImages env cfg comps).processed ↔
          ∃ c ∈ comps.filter (fun c => strStartsWith c.name "img/"), c.name = n ∧
            ∀ sf ∈ IOS_SCALES, (iosWriteOf env cfg c (fileNameBaseOf cfg c)
              (joinPath cfg.images.path (fileNameBaseOf cfg c ++ ".imageset"))
              sf).isSome = true))) := by
  constructor
  · intro hplat
    have hb : (cfg.platform == "android") = true := by rw [hplat]; rfl
    have hrun : processImages env cfg comps =
        processImagesAndroidGo env cfg
          (comps.filter (fun c => strStartsWith c.name "img/")) FsState.empty [] := by
      unfold processImages
      rw [if_pos hb]
    obtain ⟨h0, h1, _, h3, h4⟩ := processImagesAndroidGo_spec env cfg
      (comps.filter (fun c => strStartsWith c.name "img/")) FsState.empty []
    rw [hrun]
    refine ⟨h0, by rw [h1]; simp [FsState.empty], by rw [h3]; simp [FsState.empty], ?_⟩
    intro n
    rw [h4 n]
    simp
  · intro hplat
    have hb : (cfg.platform == "android") = false := by
      rw [beq_eq_false_iff_ne]
      exact hplat
    have hrun : processImages env cfg comps =
        processImagesIosGo env cfg
          (comps.filter (fun c => strStartsWith c.name "img/")) FsState.empty [] := by
      unfold processImages
      rw [if_neg (by rw [hb]; simp)]
    rw [hrun]
    refine ⟨?_, ?_, ?_⟩
    · exact processImagesIosGo_aborted_iff env cfg _ FsState.empty []
    · have := processImagesIosGo_attempts_pre env cfg
        (comps.filter (fun c => strStartsWith c.name "img/")) FsState.empty []
      simpa [FsState.empty] using this
    · intro hno
      obtain ⟨g0, g1, _, g3⟩ := processImagesIosGo_noThrow env cfg
        (comps.filter (fun c => strStartsWith c.name "img/")) FsState.empty [] hno
      refine ⟨g0, by rw [g1]; simp [FsState.empty], ?_⟩
      intro n
      rw [g3 n]
      simp

/-- C2 amended witness: a concrete all-success Android run attempts every DPI
    variant of the single image component and marks it processed. -/
theorem c2_amended_variant_failure_isolation_witness :
    (processImages envAllOk cfgAndroid [exImgA]).aborted = false ∧
    (processImages envAllOk cfgAndroid [exImgA]).st.attempts =
      [("img/a", "ldpi"), ("img/a", "mdpi"), ("img/a", "hdpi"),
       ("img/a", "xhdpi"), ("img/a", "xxhdpi"), ("img/a", "xxxhdpi")] ∧
    "img/a" ∈ (processImages envAllOk cfgAndroid [exImgA]).processed := by
  obtain ⟨h0, h1, _, h3⟩ :=
    (c2_amended_variant_failure_isolation envAllOk cfgAndroid [exImgA]).1 rfl
  refine ⟨h0, by rw [h1]; rfl, (h3 "img/a").mpr ⟨exImgA, by decide, rfl, by decide⟩⟩

/-! ## Claim C7 -/

/-- C7: evaluation of the iOS icon pipeline at its documented default
    configuration (`images.format = "png"`).  `processIcons` writes the
    optimized SVG into the imageset, but builds `Contents.json` from
    `config.images.format` rather than `'svg'`: the manifest carries five
    raster entries (`home.png`, `home@2x.png`, …) and no entry whose filename
    matches the written `home.svg` — while `createContentsJson`'s `'svg'`
    branch, which produces exactly the claimed single universal-idiom entry,
    is never reached from the icon pipeline. -/
theorem c7_ios_icon_manifest_mismatch :
    (processIcons iconEnvOk cfgIos [exIconHome]).st.writes =
      [("Assets.xcassets/home.imageset/home.svg", .raw "optsvg"),
       ("Assets.xcassets/home.imageset/Contents.json",
         .json (createContentsJson "home" cfgIos.images.format))] ∧
    (createContentsJson "home" cfgIos.images.format).images.length = 5 ∧
    (∀ img ∈ (createContentsJson "home" cfgIos.images.format).images,
      img.filename ≠ "home.svg") ∧
    (createContentsJson "home" "svg").images = [⟨"home.svg", "universal", none⟩] := by
  refine ⟨rfl, rfl, by decide, rfl⟩

/-- C8 witness: with `skipDpi = ["ldpi","mdpi"]` the single image component
    touches exactly the four remaining drawable directories. -/
theorem c8_dpi_skip_list_witness :
    dpisToProcess cfgAndroidSkip.images.skipDpi =
      ["hdpi", "xhdpi", "xxhdpi", "xxxhdpi"] ∧
    (processImages envAllOk cfgAndroidSkip [exImgA]).st.dirs =
      ["res/drawable-hdpi", "res/drawable-xhdpi", "res/drawable-xxhdpi",
       "res/drawable-xxxhdpi"] ∧
    joinPath cfgAndroidSkip.images.path "drawable-ldpi" ∉
      (processImages envAllOk cfgAndroidSkip [exImgA]).st.dirs ∧
    joinPath cfgAndroidSkip.images.path "drawable-mdpi" ∉
      (processImages envAllOk cfgAndroidSkip [exImgA]).st.dirs := by
  obtain ⟨h1, _, h3, h4, h5, _⟩ :=
    c8_dpi_skip_list envAllOk cfgAndroidSkip [exImgA] rfl rfl
  exact ⟨h1, by rw [h3]; rfl, h4, h5⟩

/-! ## Lemmas: traversal, addresses and the skip rule -/

theorem visitAddrsList_ne_nil (cs : List Node) :
    ∀ a ∈ visitAddrsList cs, a ≠ [] := by
  induction cs with
  | nil => intro a ha; simp [visitAddrsList] at ha
  | cons c rest ih =>
    intro a ha
    simp only [visitAddrsList, List.mem_append, List.mem_map] at ha
    rcases ha with ⟨b, _, hb⟩ | ⟨b, hb, hsh⟩
    · rw [← hb]
      simp
    · have := ih b hb
      rcases b with _ | ⟨j, r⟩
      · exact absurd rfl this
      · rw [← hsh]
        simp [shiftHead]

theorem mem_visitAddrsList (cs : List Node) (a : List Nat) :
    a ∈ visitAddrsList cs ↔
      ∃ j a' c, cs[j]? = some c ∧ a = j :: a' ∧ a' ∈ visitAddrs c := by
  induction cs generalizing a with
  | nil => simp [visitAddrsList]
  | cons c rest ih =>
    simp only [visitAddrsList, List.mem_append, List.mem_map]
    constructor
    · rintro (⟨b, hb, hba⟩ | ⟨b, hb, hsh⟩)
      · exact ⟨0, b, c, by simp, hba.symm, hb⟩
      · have hne := visitAddrsList_ne_nil rest b hb
        rcases b with _ | ⟨j, r⟩
        · exact absurd rfl hne
        · obtain ⟨j', a', c', hc', hjr, ha'⟩ := (ih (j :: r)).mp hb
          simp only [List.cons.injEq] at hjr
          refine ⟨j + 1, a', c', by simpa [hjr.1] using hc', ?_, ha'⟩
          rw [← hsh]
          simp [shiftHead, hjr.1, hjr.2]
    · rintro ⟨j, a', c', hc', ha, ha'⟩
      rcases j with _ | j
      · simp only [List.getElem?_cons_zero, Option.some.injEq] at hc'
        subst hc'
        exact Or.inl ⟨a', ha', ha.symm⟩
      · simp only [List.getElem?_cons_succ] at hc'
        refine Or.inr ⟨j :: a', (ih (j :: a')).mpr ⟨j, a', c', hc', rfl, ha'⟩, ?_⟩
        simp [shiftHead, ha]

mutual
theorem visitAddrs_nodeAt_corr (t : Node) (p : List String) :
    (visitAddrs t).map (nodeAt t) = (traverseNode t p).map (fun v => some v.1) := by
  obtain ⟨i, nm, ty, cs, csid, bb, ds⟩ := t
  match hnm : nm with
  | none => simp [visitAddrs, traverseNode, isBadName]
  | some s =>
    by_cases hbad : (strIsEmpty s || strStartsWith s "#") = true
    · simp [visitAddrs, traverseNode, isBadName, hbad]
    · have hb3 : (strIsEmpty s || strStartsWith s "#") = false := by simpa using hbad
      simp only [visitAddrs, isBadName, traverseNode, hb3, Bool.false_eq_true, if_false,
        List.map_cons, nodeAt]
      refine congrArg (List.cons (some (Node.mk i (some s) ty cs csid bb ds))) ?_
      have hpt : ∀ a ∈ visitAddrsList cs,
          nodeAt (Node.mk i (some s) ty cs csid bb ds) a = nodeAtList cs a := by
        intro a ha
        have hne := visitAddrsList_ne_nil cs a ha
        rcases a with _ | ⟨j, r⟩
        · exact absurd rfl hne
        · rfl
      rw [List.map_congr_left hpt]
      exact visitAddrsList_nodeAt_corr cs (p ++ [s])

theorem visitAddrsList_nodeAt_corr (cs : List Node) (p : List String) :
    (visitAddrsList cs).map (nodeAtList cs) =
      (traverseList cs p).map (fun v => some v.1) := by
  match cs with
  | [] => simp [visitAddrsList, traverseList]
  | c :: rest =>
    simp only [visitAddrsList, traverseList, List.map_append]
    refine congrArg₂ _ ?_ ?_
    · rw [List.map_map]
      have : (nodeAtList (c :: rest)) ∘ (fun a => 0 :: a) = nodeAt c := by
        funext a
        simp [nodeAtList]
      rw [this]
      exact visitAddrs_nodeAt_corr c p
    · rw [List.map_map]
      have hpt : ∀ a ∈ visitAddrsList rest,
          ((nodeAtList (c :: rest)) ∘ shiftHead) a = nodeAtList rest a := by
        intro a ha
        have hne := visitAddrsList_ne_nil rest a ha
        rcases a with _ | ⟨j, r⟩
        · exact absurd rfl hne
        · simp [shiftHead, nodeAtList]
      rw [List.map_congr_left hpt]
      exact visitAddrsList_nodeAt_corr rest p
end

mutual
theorem visitNode_skip (t : Node) (b : List Nat) (m : Node)
    (hm : nodeAt t b = some m) (hbad : isBadName m.nname = true) :
    ∀ a ∈ visitAddrs t, ¬ b <+: a := by
  obtain ⟨i, nm, ty, cs, csid, bb, ds⟩ := t
  by_cases hb : isBadName nm = true
  · simp [visitAddrs, hb]
  · have hb' : isBadName nm = false := by simpa using hb
    simp only [visitAddrs, hb', Bool.false_eq_true, if_false]
    intro a ha hpre
    rcases List.mem_cons.mp ha with he | hmem
    · subst he
      have hb0 : b = [] := by
        rcases hpre with ⟨tl, htl⟩
        exact (List.append_eq_nil.mp htl).1
      subst hb0
      simp only [nodeAt, Option.some.injEq] at hm
      rw [← hm] at hbad
      simp only [Node.nname] at hbad
      rw [hb'] at hbad
      simp at hbad
    · obtain ⟨j, a', c, hc, haj, ha'⟩ := (mem_visitAddrsList cs a).mp hmem
      subst haj
      rcases b with _ | ⟨jb, b'⟩
      · simp only [nodeAt, Option.some.injEq] at hm
        rw [← hm] at hbad
        simp only [Node.nname] at hbad
        rw [hb'] at hbad
        simp at hbad
      · rw [List.cons_prefix_cons] at hpre
        obtain ⟨hj, hpre'⟩ := hpre
        subst hj
        have hm' : nodeAt c b' = some m := by
          simp only [nodeAt, hc] at hm
          exact hm
        exact visitList_skip cs c (List.getElem?_mem hc) b' m hm' hbad a' ha' hpre'

theorem visitList_skip : ∀ (cs : List Node) (c : Node), c ∈ cs →
    ∀ (b : List Nat) (m : Node), nodeAt c b = some m → isBadName m.nname = true →
    ∀ a ∈ visitAddrs c, ¬ b <+: a
  | [], c, hc, _, _, _, _ => by simp at hc
  | c₀ :: rest, c, hc, b, m, hm, hbad => by
    rcases List.mem_cons.mp hc with he | hmem
    · rw [he] at hm ⊢
      exact visitNode_skip c₀ b m hm hbad
    · exact visitList_skip rest c hmem b m hm hbad
end

/-! ## Claim C3 -/

/-- C3: the pre-order traversal visits exactly the nodes at the collected
    addresses (first conjunct ties `visitAddrs` to `traverseNode`), and no
    visited address lies at or below the address of any node whose name is
    absent, empty or starts with `#` — the visitor is never invoked on such a
    node or on any of its descendants. -/
theorem c3_traversal_skips_bad_subtrees (t : Node) (p : List String) :
    ((visitAddrs t).map (nodeAt t) = (traverseNode t p).map (fun v => some v.1)) ∧
    (∀ (b : List Nat) (m : Node), nodeAt t b = some m → isBadName m.nname = true →
      ∀ a ∈ visitAddrs t, ¬ b <+: a) :=
  ⟨visitAddrs_nodeAt_corr t p,
   fun b m hm hbad => visitNode_skip t b m hm hbad⟩

/-- C3 witness: in the example document the `#hidden` node sits at address
    `[0, 1]`; the visited address `[0, 2]` (the component set next to it) does
    not extend it, and the visited/address correspondence holds. -/
theorem c3_traversal_skips_bad_subtrees_witness :
    ((visitAddrs exDoc).map (nodeAt exDoc) =
      (traverseNode exDoc []).map (fun v => some v.1)) ∧
    ¬ ([0, 1] : List Nat) <+: [0, 2] := by
  refine ⟨(c3_traversal_skips_bad_subtrees exDoc []).1, ?_⟩
  exact (c3_traversal_skips_bad_subtrees exDoc []).2 [0, 1] exBadNode rfl rfl
    [0, 2] (by decide)

/-! ## Lemmas and claims: page selection (C9) and the two-pass join (C4) -/

mutual
theorem findPages_eq_filter (ids nms : List String) (t : Node) :
    findPages ids nms t = (subnodes t).filter (pageMatch ids nms) := by
  obtain ⟨i, nm, ty, cs, csid, bb, ds⟩ := t
  simp only [findPages, subnodes, List.filter_cons]
  rw [findPagesList_eq_filter ids nms cs]
  by_cases hp : pageMatch ids nms (Node.mk i nm ty cs csid bb ds) = true
  · simp [hp]
  · simp [hp]

theorem findPagesList_eq_filter (ids nms : List String) (cs : List Node) :
    findPagesList ids nms cs = (subnodesList cs).filter (pageMatch ids nms) := by
  match cs with
  | [] => simp [findPagesList, subnodesList]
  | c :: rest =>
    simp only [findPagesList, subnodesList, List.filter_append]
    rw [findPages_eq_filter ids nms c, findPagesList_eq_filter ids nms rest]
end

/-- C9: page selectors are best-effort narrowing.  `findPages` collects every
    CANVAS node matching a selector by id or name; when at least one page
    matches those pages are the traversal roots, and when none matches,
    extraction falls back to the whole document — identical to running with no
    selectors — so the root set is never empty. -/
theorem c9_page_selector_fallback (fd : Node) (pageId pageName : JsStrOrArr) :
    rootsOf fd pageId pageName ≠ [] ∧
    (foundPagesOf fd pageId pageName = [] →
      extractComponents fd pageId pageName = extractComponents fd (.str "") (.str "")) ∧
    (foundPagesOf fd pageId pageName ≠ [] →
      rootsOf fd pageId pageName = foundPagesOf fd pageId pageName) ∧
    (∀ m, m ∈ findPages (toStrList pageId) (toStrList pageName) fd ↔
      (m ∈ subnodes fd ∧ pageMatch (toStrList pageId) (toStrList pageName) m = true)) := by
  refine ⟨?_, ?_, ?_, ?_⟩
  · unfold rootsOf
    rcases hf : foundPagesOf fd pageId pageName with _ | ⟨q, qs⟩
    · simp
    · simp [List.isEmpty]
  · intro h
    have hroots : rootsOf fd pageId pageName = [fd] := by
      unfold rootsOf
      rw [h]
      rfl
    have hroots' : rootsOf fd (.str "") (.str "") = [fd] := by
      unfold rootsOf foundPagesOf
      simp [toStrList, strIsEmpty]
    unfold extractComponents
    rw [hroots, hroots']
  · intro h
    unfold rootsOf
    rcases hf : foundPagesOf fd pageId pageName with _ | ⟨q, qs⟩
    · exact absurd hf h
    · simp [List.isEmpty]
  · intro m
    rw [findPages_eq_filter]
    simp [List.mem_filter]

/-- C9 witness: with an unmatched page-id selector, extraction over the
    example document equals the unrestricted extraction, and the `Page 1`
    canvas is collected by `findPages` when selected by id. -/
theorem c9_page_selector_fallback_witness :
    extractComponents exDoc (.str "nomatch") (.str "") =
      extractComponents exDoc (.str "") (.str "") ∧
    exPage ∈ findPages (toStrList (.str "0:1")) (toStrList (.str "")) exDoc := by
  constructor
  · exact (c9_page_selector_fallback exDoc (.str "nomatch") (.str "")).2.1 rfl
  · refine ((c9_page_selector_fallback exDoc (.str "0:1") (.str "")).2.2.2 exPage).mpr
      ⟨?_, by rfl⟩
    simp [subnodes, subnodesList, exDoc, exPage, exBadNode, exSetNode]

/-- C4: in the two-pass extraction, a COMPONENT whose (truthy) componentSetId
    is a key of the pass-1 COMPONENT_SET map over the same traversal roots
    gets `componentSet` populated with that set's id, name and path, and a
    COMPONENT whose componentSetId is absent or matches no collected set gets
    `componentSet = null`. -/
theorem c4_component_set_join (fd : Node) (pageId pageName : JsStrOrArr)
    (c : Component) (hc : c ∈ extractComponents fd pageId pageName) :
    (∀ sid, c.componentSetId = some sid →
      (match alookup (collectSets (rootsOf fd pageId pageName)) sid with
       | some (sn, sp) => c.componentSet = some ⟨sid, sn.nname, sp⟩
       | none => c.componentSet = none)) ∧
    (c.componentSetId = none → c.componentSet = none) := by
  unfold extractComponents at hc
  obtain ⟨v, hv, hcv⟩ := List.mem_filterMap.mp hc
  by_cases ht : (v.1.ntype == "COMPONENT") = true
  case neg =>
    rw [if_neg ht] at hcv
    simp at hcv
  rw [if_pos ht] at hcv
  simp only [Option.some.injEq] at hcv
  subst hcv
  rcases hcs : v.1.ncsid with _ | sid'
  · constructor
    · intro sid hsid
      rw [show (buildComponent v.1 v.2 (collectSets (rootsOf fd pageId pageName))).componentSetId
          = none from by simp [buildComponent, jsOrNullStr, hcs]] at hsid
      simp at hsid
    · intro _
      simp [buildComponent, hcs]
  · by_cases he : strIsEmpty sid' = true
    · constructor
      · intro sid hsid
        rw [show (buildComponent v.1 v.2 (collectSets (rootsOf fd pageId pageName))).componentSetId
            = none from by simp [buildComponent, jsOrNullStr, hcs, he]] at hsid
        simp at hsid
      · intro _
        simp [buildComponent, hcs, he]
    · have he' : strIsEmpty sid' = false := by simpa using he
      constructor
      · intro sid hsid
        have hsid' : sid = sid' := by
          rw [show (buildComponent v.1 v.2 (collectSets (rootsOf fd pageId pageName))).componentSetId
              = some sid' from by
                simp [buildComponent, jsOrNullStr, hcs, he', Bool.false_eq_true]] at hsid
          simpa using hsid.symm
        subst hsid'
        rcases halk : alookup (collectSets (rootsOf fd pageId pageName)) sid with _ | ⟨sn, sp⟩
        · simp [buildComponent, hcs, he', Bool.false_eq_true, halk]
        · simp [buildComponent, hcs, he', Bool.false_eq_true, halk]
      · intro h0
        rw [show (buildComponent v.1 v.2 (collectSets (rootsOf fd pageId pageName))).componentSetId
            = some sid' from by
              simp [buildComponent, jsOrNullStr, hcs, he', Bool.false_eq_true]] at h0
        simp at h0

/-- C4 witness: in the example document, the variant whose componentSetId is
    the collected set `3:1` carries that set's name and path, and the variant
    pointing at the unknown set `9:9` carries `componentSet = null`. -/
theorem c4_component_set_join_witness :
    (⟨"3:2", "v1", "Document / Page 1 / ButtonSet / v1", "COMPONENT", "", none, none,
      some "3:1", some ⟨"3:1", some "ButtonSet", ["Document", "Page 1", "ButtonSet"]⟩⟩ :
        Component).componentSet =
      some ⟨"3:1", some "ButtonSet", ["Document", "Page 1", "ButtonSet"]⟩ ∧
    (⟨"3:3", "v2", "Document / Page 1 / ButtonSet / v2", "COMPONENT", "", none, none,
      some "9:9", none⟩ : Component).componentSet = none := by
  constructor
  · exact (c4_component_set_join exDoc (.str "") (.str "") _ (by decide)).1 "3:1" rfl
  · exact (c4_component_set_join exDoc (.str "") (.str "") _ (by decide)).1 "9:9" rfl
